import Mathlib

/-!
Verification of the asynchronous job execution engine of the lyra-glass
backend. The TypeScript source is embedded shallowly:

* the D1 task table becomes a `List Task` kept in insertion order
  (`created_at` is nondecreasing in insertion order in every code path,
  so `ORDER BY created_at ASC` coincides with list order);
* every `taskDb` operation becomes a pure function threading the store
  and returning the same data the source returns (`meta.changes` counts
  become `Nat`, unix-second timestamps become `Int` and are passed in as
  an explicit `now` argument in place of `Date.now()/1000`);
* SQL `NULL` comparisons follow SQLite: `started_at < ?` is false when
  `started_at` is `NULL`.
-/

namespace LyraGlass

inductive Status where
  | pending
  | processing
  | completed
  | failed
  | cancelled
  deriving DecidableEq, Repr

/-- A status is terminal when the spec forbids transitions out of it. -/
def Status.isTerminal : Status → Bool
  | .completed => true
  | .failed => true
  | .cancelled => true
  | _ => false

inductive TaskType where
  | generate
  | batch
  | product_shot
  deriving DecidableEq, Repr

/-- Opaque model configuration forwarded wholesale to the generation
collaborator (`generateEyewearImage`). -/
structure ModelConfig where
  payload : String := ""
  deriving DecidableEq, Repr

/-- Product-shot configuration object read from `input.config`. -/
structure ShotConfig where
  backgroundColor : String := ""
  reflectionEnabled : Bool := false
  shadowStyle : String := ""
  outputSize : String := ""
  aspectRatio : String := ""
  deriving DecidableEq, Repr

/-- The fields of `input_data` that the processor reads, with `none`
standing for an absent JSON field. -/
structure InputData where
  imageBase64 : String := ""
  prompt : Option String := none
  modelConfig : Option ModelConfig := none
  imageQuality : Option String := none
  gender : Option String := none
  aspectRatio : Option String := none
  templateId : Option String := none
  templateName : Option String := none
  variableValues : List (String × String) := []
  combinations : List (List (String × String)) := []
  basePrompt : String := ""
  concurrency : Option Int := none
  angle : String := ""
  config : ShotConfig := {}
  deriving DecidableEq, Repr

/-- The fields written into `output_data` by the three `complete` call
sites of the processor. -/
structure OutputData where
  success : Bool := true
  batchId : Option String := none
  subTaskCount : Option Nat := none
  message : Option String := none
  imageUrl : Option String := none
  thumbnailUrl : Option String := none
  imageId : Option String := none
  angle : Option String := none
  deriving DecidableEq, Repr

/-- One row of the `tasks` table. -/
structure Task where
  id : String
  userId : Int
  type : TaskType
  status : Status
  progress : Int
  inputData : InputData
  outputData : Option OutputData
  errorMessage : Option String
  batchId : Option String
  createdAt : Int
  startedAt : Option Int
  completedAt : Option Int
  deriving DecidableEq, Repr

/-- Counts returned by `taskDb.getBatchProgress`. -/
structure BatchProgress where
  total : Nat
  completed : Nat
  failed : Nat
  processing : Nat
  pending : Nat
  deriving DecidableEq, Repr

/-- Result shape of `taskDb.cancel`. -/
structure CancelResult where
  success : Bool
  message : String
  deriving DecidableEq, Repr

/-- Semantics of a D1 `UPDATE ... SET ... WHERE cond`: applies `f` to
every row matching `cond` and reports `meta.changes`, the number of rows
the statement touched. -/
def sqlUpdate (cond : Task → Bool) (f : Task → Task) (db : List Task) :
    Nat × List Task :=
  ((db.filter cond).length, db.map fun t => if cond t then f t else t)

namespace taskDb

/-- `taskDb.create`: INSERT of a pending row with progress 0, returning
the constructed record. -/
def create (now : Int) (taskId : String) (userId : Int) (type : TaskType)
    (inputData : InputData) (batchId : Option String) (db : List Task) :
    Task × List Task :=
  let t : Task :=
    { id := taskId, userId := userId, type := type, status := .pending
      progress := 0, inputData := inputData, outputData := none
      errorMessage := none, batchId := batchId, createdAt := now
      startedAt := none, completedAt := none }
  (t, db ++ [t])

/-- `taskDb.startProcessing`: UPDATE ... SET status, started_at, progress
WHERE id = ? AND status = pending; returns `meta.changes > 0`. -/
def startProcessing (now : Int) (taskId : String) (db : List Task) :
    Bool × List Task :=
  let r := sqlUpdate
    (fun t => t.id = taskId && t.status = Status.pending)
    (fun t => { t with status := .processing, startedAt := some now
                       progress := 10 }) db
  (r.1 > 0, r.2)

/-- `taskDb.updateProgress`: unconditional progress write by id. -/
def updateProgress (taskId : String) (progress : Int) (db : List Task) :
    Bool × List Task :=
  let r := sqlUpdate (fun t => t.id = taskId)
    (fun t => { t with progress := progress }) db
  (r.1 > 0, r.2)

/-- `taskDb.complete`: UPDATE ... SET status = completed, output_data,
completed_at, progress = 100 WHERE id = ? (no status guard). -/
def complete (now : Int) (taskId : String) (outputData : OutputData)
    (db : List Task) : Bool × List Task :=
  let r := sqlUpdate (fun t => t.id = taskId)
    (fun t => { t with status := .completed, outputData := some outputData
                       completedAt := some now, progress := 100 }) db
  (r.1 > 0, r.2)

/-- `taskDb.fail`: UPDATE ... SET status = failed, error_message,
completed_at WHERE id = ? (no status guard). -/
def fail (now : Int) (taskId : String) (errorMessage : String)
    (db : List Task) : Bool × List Task :=
  let r := sqlUpdate (fun t => t.id = taskId)
    (fun t => { t with status := .failed, errorMessage := some errorMessage
                       completedAt := some now }) db
  (r.1 > 0, r.2)

/-- `taskDb.getById`: SELECT * WHERE id = ? (first row). -/
def getById (taskId : String) (db : List Task) : Option Task :=
  db.find? fun t => t.id = taskId

/-- `taskDb.getPending`: pending rows in created_at order, LIMIT `limit`. -/
def getPending (limit : Nat) (db : List Task) : List Task :=
  (db.filter fun t => t.status = Status.pending).take limit

/-- `taskDb.getByBatchId`: rows with the given batch_id in created_at
order. -/
def getByBatchId (batchId : String) (db : List Task) : List Task :=
  db.filter fun t => t.batchId = some batchId

/-- `taskDb.getBatchProgress`: COUNT of siblings plus one SUM per status
bucket; a cancelled sibling is counted in `total` only. -/
def getBatchProgress (batchId : String) (db : List Task) : BatchProgress :=
  let rows := db.filter fun t => t.batchId = some batchId
  { total := rows.length
    completed := (rows.filter fun t => t.status = Status.completed).length
    failed := (rows.filter fun t => t.status = Status.failed).length
    processing := (rows.filter fun t => t.status = Status.processing).length
    pending := (rows.filter fun t => t.status = Status.pending).length }

/-- Predicate of the `resetStuckTasks` WHERE clause: processing rows whose
started_at is set and strictly older than the ten-minute cutoff. -/
def stuck (now : Int) (t : Task) : Bool :=
  t.status = Status.processing &&
    (match t.startedAt with
     | some s => s < now - 10 * 60
     | none => false)

/-- `taskDb.resetStuckTasks`: resets every stuck processing row to
pending with started_at NULL and progress 0, returning `meta.changes`. -/
def resetStuckTasks (now : Int) (db : List Task) : Nat × List Task :=
  sqlUpdate (stuck now)
    (fun t => { t with status := .pending, startedAt := none
                       progress := 0 }) db

/-- `taskDb.cancel`: looks the row up, then checks owner, completed and
failed in that order; any other status is cancelled unconditionally. -/
def cancel (now : Int) (taskId : String) (userId : Int) (db : List Task) :
    CancelResult × List Task :=
  match db.find? (fun t => t.id = taskId) with
  | none => ({ success := false, message := "任务不存在" }, db)
  | some task =>
    if task.userId ≠ userId then
      ({ success := false, message := "无权取消此任务" }, db)
    else if task.status = .completed then
      ({ success := false, message := "任务已完成，无法取消" }, db)
    else if task.status = .failed then
      ({ success := false, message := "任务已失败" }, db)
    else
      let r := sqlUpdate (fun t => t.id = taskId)
        (fun t => { t with status := .cancelled, completedAt := some now }) db
      ({ success := true, message := "任务已取消" }, r.2)

/-- `taskDb.cleanup`: DELETE of completed and failed rows whose
completed_at is older than the retention cutoff, returning the count. -/
def cleanup (now : Int) (daysToKeep : Int) (db : List Task) :
    Nat × List Task :=
  let cutoff := now - daysToKeep * 24 * 60 * 60
  let gone := fun t =>
    (t.status = Status.completed || t.status = Status.failed) &&
      (match t.completedAt with
       | some c => c < cutoff
       | none => false)
  ((db.filter gone).length, db.filter fun t => !gone t)

end taskDb

/-! ### Shared lemmas about the store embedding -/

theorem sqlUpdate_changes_pos (c : Task → Bool) (f : Task → Task)
    (db : List Task) : 0 < (sqlUpdate c f db).1 ↔ ∃ t ∈ db, c t = true := by
  simp only [sqlUpdate, List.length_pos, ne_eq, List.filter_eq_nil_iff]
  push_neg
  simp

theorem sqlUpdate_eq_self (c : Task → Bool) (f : Task → Task)
    (db : List Task) (h : ∀ t ∈ db, c t = false) :
    (sqlUpdate c f db).2 = db := by
  simp only [sqlUpdate]
  conv_rhs => rw [← List.map_id db]
  refine List.map_congr_left fun t ht => ?_
  rw [h t ht]
  rfl

theorem sqlUpdate_snd (c : Task → Bool) (f : Task → Task) (db : List Task) :
    (sqlUpdate c f db).2 = db.map fun t => if c t then f t else t := rfl

/-- Looking a row up by id in a row-wise mapped store, when ids are
unique and the map preserves ids, yields the image of the original row. -/
theorem getById_map_nodup (g : Task → Task) (hg : ∀ u, (g u).id = u.id)
    (db : List Task) (t : Task) (hu : (db.map Task.id).Nodup)
    (ht : t ∈ db) : taskDb.getById t.id (db.map g) = some (g t) := by
  induction db with
  | nil => cases ht
  | cons h tl ih =>
    simp only [List.map_cons, List.nodup_cons] at hu
    rcases List.mem_cons.mp ht with rfl | htl
    · simp [taskDb.getById, List.find?_cons, hg]
    · have hne : h.id ≠ t.id := by
        intro he
        exact hu.1 (he ▸ List.mem_map_of_mem Task.id htl)
      simp only [taskDb.getById, List.map_cons, List.find?_cons]
      rw [hg h]
      simp only [taskDb.getById] at ih
      have : (decide (h.id = t.id)) = false := by
        simp [hne]
      rw [this]
      exact ih hu.2 htl

/-- C1: `startProcessing` is a compare-and-set: it returns true exactly
when a pending row with the given id exists, in which case the row
becomes processing with `started_at = now` and progress 10; when it
returns false the store is unchanged, and of two sequential invocations
on the same pending task the first wins, the second returns false and
writes nothing. -/
theorem startProcessing_cas_spec
    (now now2 : Int) (taskId : String) (db : List Task)
    (hu : (db.map Task.id).Nodup) :
    ((taskDb.startProcessing now taskId db).1 = true
        ↔ ∃ t ∈ db, t.id = taskId ∧ t.status = Status.pending)
    ∧ (∀ t ∈ db, t.id = taskId → t.status = Status.pending →
        taskDb.getById taskId (taskDb.startProcessing now taskId db).2
          = some { t with status := .processing, startedAt := some now
                          progress := 10 })
    ∧ ((taskDb.startProcessing now taskId db).1 = false →
        (taskDb.startProcessing now taskId db).2 = db)
    ∧ (∀ t ∈ db, t.id = taskId → t.status = Status.pending →
        (taskDb.startProcessing now2 taskId
            (taskDb.startProcessing now taskId db).2).1 = false
        ∧ (taskDb.startProcessing now2 taskId
            (taskDb.startProcessing now taskId db).2).2
          = (taskDb.startProcessing now taskId db).2) := by
  have hiff : ∀ (n : Int) (d : List Task),
      (taskDb.startProcessing n taskId d).1 = true
        ↔ ∃ t ∈ d, t.id = taskId ∧ t.status = Status.pending := by
    intro n d
    simp only [taskDb.startProcessing, decide_eq_true_eq, gt_iff_lt]
    rw [sqlUpdate_changes_pos]
    simp
  refine ⟨hiff now db, ?_, ?_, ?_⟩
  · intro t ht hid hst
    have := getById_map_nodup
      (fun u => if (u.id = taskId && u.status = Status.pending : Bool)
        then { u with status := .processing, startedAt := some now
                      progress := 10 } else u)
      (fun u => by dsimp only; split <;> rfl) db t hu ht
    rw [hid] at this
    simpa [taskDb.startProcessing, sqlUpdate, hid, hst] using this
  · intro hfalse
    refine sqlUpdate_eq_self _ _ db fun t ht => ?_
    by_contra hc
    rw [Bool.not_eq_false] at hc
    have : (taskDb.startProcessing now taskId db).1 = true :=
      (hiff now db).mpr (by
        rw [Bool.and_eq_true, decide_eq_true_eq, decide_eq_true_eq] at hc
        exact ⟨t, ht, hc⟩)
    rw [hfalse] at this
    cases this
  · intro t ht hid hst
    have hnone : ∀ u ∈ (taskDb.startProcessing now taskId db).2,
        ¬(u.id = taskId ∧ u.status = Status.pending) := by
      intro u hu2 ⟨huid, hust⟩
      simp only [taskDb.startProcessing, sqlUpdate_snd, List.mem_map]
        at hu2
      rcases hu2 with ⟨v, _, rfl⟩
      by_cases hc : (v.id = taskId && v.status = Status.pending : Bool)
      · rw [if_pos hc] at hust
        cases hust
      · rw [if_neg (by simpa using hc)] at huid hust
        rw [Bool.and_eq_true, decide_eq_true_eq, decide_eq_true_eq] at hc
        exact hc ⟨huid, hust⟩
    have hf : (taskDb.startProcessing now2 taskId
        (taskDb.startProcessing now taskId db).2).1 = false := by
      rw [← Bool.not_eq_true, hiff]
      rintro ⟨u, hu2, h1, h2⟩
      exact hnone u hu2 ⟨h1, h2⟩
    refine ⟨hf, ?_⟩
    refine sqlUpdate_eq_self _ _ _ fun u hu2 => ?_
    rw [Bool.eq_false_iff]
    intro hc
    rw [Bool.and_eq_true, decide_eq_true_eq, decide_eq_true_eq] at hc
    exact hnone u hu2 hc

/-- A pending demo row used by the concrete witnesses. -/
def demoTask : Task :=
  { id := "t1", userId := 1, type := .generate, status := .pending
    progress := 0, inputData := {}, outputData := none
    errorMessage := none, batchId := none, createdAt := 0
    startedAt := none, completedAt := none }

theorem startProcessing_cas_spec_witness :
    (taskDb.startProcessing 100 "t1" [demoTask]).1 = true
    ∧ (taskDb.startProcessing 101 "t1"
        (taskDb.startProcessing 100 "t1" [demoTask]).2).1 = false := by
  have h := startProcessing_cas_spec 100 101 "t1" [demoTask]
    (by simp)
  exact ⟨h.1.mpr ⟨demoTask, List.mem_singleton_self _, rfl, rfl⟩,
    (h.2.2.2 demoTask (List.mem_singleton_self _) rfl rfl).1⟩

/-- C8: `resetStuckTasks` resets exactly the processing rows whose
`started_at` is strictly older than the ten-minute threshold to pending
with `started_at` NULL and progress 0, returns the number of rows
reclaimed, and leaves every other row untouched: a processing row whose
`started_at` is within the threshold and every non-processing row look
up unchanged afterwards. -/
theorem resetStuckTasks_spec (now : Int) (db : List Task)
    (hu : (db.map Task.id).Nodup) :
    (taskDb.resetStuckTasks now db).1 = db.countP (taskDb.stuck now)
    ∧ (∀ t ∈ db, t.status = Status.processing →
        (∀ s, t.startedAt = some s → now - 10 * 60 ≤ s) →
        taskDb.getById t.id (taskDb.resetStuckTasks now db).2 = some t)
    ∧ (∀ t ∈ db, t.status ≠ Status.processing →
        taskDb.getById t.id (taskDb.resetStuckTasks now db).2 = some t)
    ∧ (∀ t ∈ db, t.status = Status.processing →
        ∀ s, t.startedAt = some s → s < now - 10 * 60 →
        taskDb.getById t.id (taskDb.resetStuckTasks now db).2
          = some { t with status := .pending, startedAt := none
                          progress := 0 }) := by
  have hmap := fun t ht => getById_map_nodup
    (fun u => if taskDb.stuck now u
      then { u with status := .pending, startedAt := none, progress := 0 }
      else u)
    (fun u => by dsimp only; split <;> rfl) db t hu ht
  refine ⟨?_, ?_, ?_, ?_⟩
  · simp [taskDb.resetStuckTasks, sqlUpdate, List.countP_eq_length_filter]
  · intro t ht hst hin
    have hs : taskDb.stuck now t = false := by
      unfold taskDb.stuck
      cases hsa : t.startedAt with
      | none => simp [hsa]
      | some s =>
        have hle := hin s hsa
        simp [hsa]
        intro _
        omega
    have := hmap t ht
    rw [hs] at this
    simpa [taskDb.resetStuckTasks, sqlUpdate_snd] using this
  · intro t ht hst
    have hs : taskDb.stuck now t = false := by
      unfold taskDb.stuck
      simp [hst]
    have := hmap t ht
    rw [hs] at this
    simpa [taskDb.resetStuckTasks, sqlUpdate_snd] using this
  · intro t ht hst s hsa hold
    have hs : taskDb.stuck now t = true := by
      unfold taskDb.stuck
      simp [hst, hsa]
      omega
    have := hmap t ht
    rw [hs] at this
    simpa [taskDb.resetStuckTasks, sqlUpdate_snd] using this

/-- A processing demo row abandoned long before the threshold. -/
def demoStuckTask : Task :=
  { id := "t2", userId := 1, type := .generate, status := .processing
    progress := 10, inputData := {}, outputData := none
    errorMessage := none, batchId := none, createdAt := 0
    startedAt := some 100, completedAt := none }

/-- A processing demo row whose worker is still live. -/
def demoLiveTask : Task :=
  { id := "t3", userId := 1, type := .generate, status := .processing
    progress := 10, inputData := {}, outputData := none
    errorMessage := none, batchId := none, createdAt := 0
    startedAt := some 900, completedAt := none }

theorem resetStuckTasks_spec_witness :
    (taskDb.resetStuckTasks 1000 [demoStuckTask, demoLiveTask]).1 = 1
    ∧ taskDb.getById "t3"
        (taskDb.resetStuckTasks 1000 [demoStuckTask, demoLiveTask]).2
        = some demoLiveTask
    ∧ taskDb.getById "t2"
        (taskDb.resetStuckTasks 1000 [demoStuckTask, demoLiveTask]).2
        = some { demoStuckTask with status := .pending, startedAt := none
                                    progress := 0 } := by
  have h := resetStuckTasks_spec 1000 [demoStuckTask, demoLiveTask]
    (by simp [demoStuckTask, demoLiveTask])
  refine ⟨?_, ?_, ?_⟩
  · rw [h.1]
    decide
  · exact h.2.1 demoLiveTask (by simp) rfl
      (fun s hs => by simp [demoLiveTask] at hs; omega)
  · exact h.2.2.2 demoStuckTask (by simp) rfl 100 rfl (by omega)

/-- Looking a row up by its own id returns that row when ids are
unique. -/
theorem getById_self (db : List Task) (t : Task)
    (hu : (db.map Task.id).Nodup) (ht : t ∈ db) :
    taskDb.getById t.id db = some t := by
  have := getById_map_nodup id (fun _ => rfl) db t hu ht
  rwa [List.map_id] at this

/-- A `find?` that already succeeds on the front list ignores appended
rows. -/
theorem find?_append_of_some {α : Type} (p : α → Bool) (l1 l2 : List α)
    (a : α) (h : l1.find? p = some a) : (l1 ++ l2).find? p = some a := by
  induction l1 with
  | nil => cases h
  | cons x xs ih =>
    rw [List.cons_append, List.find?_cons] at *
    cases hp : p x with
    | true => rw [hp] at h; simpa [hp] using h
    | false => rw [hp] at h; simpa [hp] using ih h

/-- A failed demo row used by the C3 counterexample. -/
def demoFailedTask : Task :=
  { id := "t4", userId := 1, type := .generate, status := .failed
    progress := 10, inputData := {}, outputData := none
    errorMessage := some "boom", batchId := none, createdAt := 0
    startedAt := some 10, completedAt := some 50 }

/-- C3 counterexample: `complete` carries no status guard, so calling it
on a task whose status is the terminal `failed` moves the task to
`completed`, leaving the terminal status. -/
theorem complete_overwrites_failed_cex :
    Status.isTerminal demoFailedTask.status = true
    ∧ (taskDb.getById "t4"
        (taskDb.complete 60 "t4" {} [demoFailedTask]).2).map Task.status
        = some Status.completed := by
  exact ⟨rfl, rfl⟩

/-- A row untouched by the WHERE clause of an UPDATE reads back
unchanged. -/
theorem getById_sqlUpdate_of_neg (c : Task → Bool) (f : Task → Task)
    (hf : ∀ u, (f u).id = u.id) (db : List Task) (t : Task)
    (hu : (db.map Task.id).Nodup) (ht : t ∈ db) (hc : c t = false) :
    taskDb.getById t.id (sqlUpdate c f db).2 = some t := by
  rw [sqlUpdate_snd]
  have hg : ∀ u, ((fun u => if c u then f u else u) u).id = u.id := by
    intro u
    dsimp only
    split
    · exact hf u
    · rfl
  have := getById_map_nodup (fun u => if c u then f u else u) hg db t hu ht
  simpa [hc] using this

/-- A row matched by the WHERE clause of an UPDATE reads back through the
SET clause. -/
theorem getById_sqlUpdate_of_pos (c : Task → Bool) (f : Task → Task)
    (hf : ∀ u, (f u).id = u.id) (db : List Task) (t : Task)
    (hu : (db.map Task.id).Nodup) (ht : t ∈ db) (hc : c t = true) :
    taskDb.getById t.id (sqlUpdate c f db).2 = some (f t) := by
  rw [sqlUpdate_snd]
  have hg : ∀ u, ((fun u => if c u then f u else u) u).id = u.id := by
    intro u
    dsimp only
    split
    · exact hf u
    · rfl
  have := getById_map_nodup (fun u => if c u then f u else u) hg db t hu ht
  simpa [hc] using this

/-- C3 amended: among the store operations, `create`, `startProcessing`,
`updateProgress`, `resetStuckTasks` and `cancel` never move a task out
of a terminal status, for every task in every store state with unique
ids; `complete` and `fail`, by contrast, are unconditional writes and do
move terminal tasks (see the counterexample). -/
theorem terminal_status_preserved_amended
    (db : List Task) (hu : (db.map Task.id).Nodup) (t : Task)
    (ht : t ∈ db) (hterm : t.status.isTerminal = true) :
    (∀ now id2 uid ty inp b,
      (taskDb.getById t.id
        (taskDb.create now id2 uid ty inp b db).2).map Task.status
        = some t.status)
    ∧ (∀ now id2,
      (taskDb.getById t.id
        (taskDb.startProcessing now id2 db).2).map Task.status
        = some t.status)
    ∧ (∀ id2 p,
      (taskDb.getById t.id
        (taskDb.updateProgress id2 p db).2).map Task.status
        = some t.status)
    ∧ (∀ now,
      (taskDb.getById t.id
        (taskDb.resetStuckTasks now db).2).map Task.status
        = some t.status)
    ∧ (∀ now id2 uid,
      (taskDb.getById t.id
        (taskDb.cancel now id2 uid db).2).map Task.status
        = some t.status) := by
  have hterm3 : t.status = Status.completed ∨ t.status = Status.failed
      ∨ t.status = Status.cancelled := by
    cases hs : t.status <;> simp_all [Status.isTerminal]
  refine ⟨?_, ?_, ?_, ?_, ?_⟩
  · intro now id2 uid ty inp b
    have hfind := getById_self db t hu ht
    simp only [taskDb.create]
    rw [taskDb.getById, find?_append_of_some _ db _ t hfind]
    rfl
  · intro now id2
    have hc : (t.id = id2 && t.status = Status.pending : Bool) = false := by
      rcases hterm3 with h | h | h <;> simp [h]
    simp only [taskDb.startProcessing]
    rw [getById_sqlUpdate_of_neg _ _ (by intro u; rfl) db t hu ht hc]
    rfl
  · intro id2 p
    simp only [taskDb.updateProgress]
    cases hc : (decide (t.id = id2) : Bool) with
    | true =>
      rw [getById_sqlUpdate_of_pos _ _ (by intro u; rfl) db t hu ht hc]
      rfl
    | false =>
      rw [getById_sqlUpdate_of_neg _ _ (by intro u; rfl) db t hu ht hc]
      rfl
  · intro now
    have hc : taskDb.stuck now t = false := by
      unfold taskDb.stuck
      rcases hterm3 with h | h | h <;> simp [h]
    simp only [taskDb.resetStuckTasks]
    rw [getById_sqlUpdate_of_neg _ _ (by intro u; rfl) db t hu ht hc]
    rfl
  · intro now id2 uid
    simp only [taskDb.cancel]
    cases hfind : db.find? (fun u => u.id = id2) with
    | none =>
      simp only [hfind]
      rw [(getById_self db t hu ht : _)]
      rfl
    | some task =>
      simp only [hfind]
      by_cases hown : task.userId ≠ uid
      · rw [if_pos hown]
        rw [(getById_self db t hu ht : _)]
        rfl
      · rw [if_neg hown]
        by_cases hcomp : task.status = Status.completed
        · rw [if_pos hcomp]
          rw [(getById_self db t hu ht : _)]
          rfl
        · rw [if_neg hcomp]
          by_cases hfail : task.status = Status.failed
          · rw [if_pos hfail]
            rw [(getById_self db t hu ht : _)]
            rfl
          · rw [if_neg hfail]
            cases hid : (decide (t.id = id2) : Bool) with
            | true =>
              have htt : task = t := by
                have hself := getById_self db t hu ht
                rw [taskDb.getById] at hself
                rw [show id2 = t.id from
                  (by simpa using hid : t.id = id2).symm] at hfind
                rw [hfind] at hself
                exact Option.some_injective _ hself
              have hcanc : t.status = Status.cancelled := by
                subst htt
                rcases hterm3 with h | h | h
                · exact absurd h hcomp
                · exact absurd h hfail
                · exact h
              rw [getById_sqlUpdate_of_pos _ _ (by intro u; rfl) db t hu ht hid]
              simp [hcanc]
            | false =>
              rw [getById_sqlUpdate_of_neg _ _ (by intro u; rfl) db t hu ht hid]
              rfl

/-- A cancelled demo row used by the C3 and C6 witnesses. -/
def demoCancelledTask : Task :=
  { id := "t5", userId := 2, type := .generate, status := .cancelled
    progress := 40, inputData := {}, outputData := none
    errorMessage := none, batchId := none, createdAt := 0
    startedAt := some 10, completedAt := some 20 }

theorem terminal_status_preserved_amended_witness :
    (taskDb.getById "t4"
      (taskDb.cancel 77 "t4" 1 [demoFailedTask]).2).map Task.status
      = some Status.failed
    ∧ (taskDb.getById "t5"
      (taskDb.resetStuckTasks 5000 [demoCancelledTask]).2).map Task.status
      = some Status.cancelled := by
  have h1 := terminal_status_preserved_amended [demoFailedTask]
    (by simp) demoFailedTask (by simp) rfl
  have h2 := terminal_status_preserved_amended [demoCancelledTask]
    (by simp) demoCancelledTask (by simp) rfl
  exact ⟨h1.2.2.2.2 77 "t4" 1, h2.2.2.2.1 5000⟩

/-- C6 counterexample: cancelling an already-cancelled task with the
matching owner reports success and refreshes completed_at, although
cancelled is a terminal status and the claim requires a non-success
result with the record left unchanged. -/
theorem cancel_cancelled_returns_success_cex :
    Status.isTerminal demoCancelledTask.status = true
    ∧ (taskDb.cancel 99 "t5" 2 [demoCancelledTask]).1.success = true
    ∧ demoCancelledTask.completedAt = some 20
    ∧ (taskDb.getById "t5"
        (taskDb.cancel 99 "t5" 2 [demoCancelledTask]).2).map
          Task.completedAt = some (some 99) := by
  exact ⟨rfl, rfl, rfl, rfl⟩

/-- C6 amended: `cancel` returns a descriptive non-success result and
leaves the store unchanged when the task is absent, owned by another
user, completed, or failed; in every other case — status pending,
processing, or already cancelled, with matching owner — it sets
status = cancelled and completed_at = now and reports success.  The
guard covers only completed and failed, not the full set of terminal
statuses. -/
theorem cancel_spec_amended (now : Int) (taskId : String) (uid : Int)
    (db : List Task) (hu : (db.map Task.id).Nodup) :
    (taskDb.getById taskId db = none →
      taskDb.cancel now taskId uid db
        = ({ success := false, message := "任务不存在" }, db))
    ∧ (∀ t, taskDb.getById taskId db = some t → t.userId ≠ uid →
      taskDb.cancel now taskId uid db
        = ({ success := false, message := "无权取消此任务" }, db))
    ∧ (∀ t, taskDb.getById taskId db = some t → t.userId = uid →
      t.status = Status.completed →
      taskDb.cancel now taskId uid db
        = ({ success := false, message := "任务已完成，无法取消" }, db))
    ∧ (∀ t, taskDb.getById taskId db = some t → t.userId = uid →
      t.status = Status.failed →
      taskDb.cancel now taskId uid db
        = ({ success := false, message := "任务已失败" }, db))
    ∧ (∀ t, taskDb.getById taskId db = some t → t.userId = uid →
      t.status ≠ Status.completed → t.status ≠ Status.failed →
      (taskDb.cancel now taskId uid db).1
        = { success := true, message := "任务已取消" }
      ∧ taskDb.getById taskId (taskDb.cancel now taskId uid db).2
        = some { t with status := .cancelled
                        completedAt := some now }) := by
  refine ⟨?_, ?_, ?_, ?_, ?_⟩
  · intro hnone
    rw [taskDb.getById] at hnone
    simp only [taskDb.cancel, hnone]
  · intro t hfind hown
    rw [taskDb.getById] at hfind
    simp only [taskDb.cancel, hfind]
    rw [if_pos hown]
  · intro t hfind hown hst
    rw [taskDb.getById] at hfind
    simp only [taskDb.cancel, hfind]
    rw [if_neg (by simp [hown]), if_pos hst]
  · intro t hfind hown hst
    rw [taskDb.getById] at hfind
    have hnc : t.status ≠ Status.completed := by
      rw [hst]
      intro h
      cases h
    simp only [taskDb.cancel, hfind]
    rw [if_neg (by simp [hown]), if_neg hnc, if_pos hst]
  · intro t hfind hown hnc hnf
    rw [taskDb.getById] at hfind
    have hmem : t ∈ db := List.mem_of_find?_eq_some hfind
    have htid : t.id = taskId := by
      have := List.find?_some hfind
      simpa using this
    constructor
    · simp only [taskDb.cancel, hfind]
      rw [if_neg (by simp [hown]), if_neg hnc, if_neg hnf]
    · simp only [taskDb.cancel, hfind]
      rw [if_neg (by simp [hown]), if_neg hnc, if_neg hnf]
      rw [← htid]
      exact getById_sqlUpdate_of_pos _ _ (by intro u; rfl) db t hu hmem
        (by simp [htid])

theorem cancel_spec_amended_witness :
    (taskDb.cancel 50 "t1" 1 [demoTask]).1
      = { success := true, message := "任务已取消" }
    ∧ (taskDb.getById "t1" (taskDb.cancel 50 "t1" 1 [demoTask]).2).map
        Task.status = some Status.cancelled
    ∧ (taskDb.cancel 50 "t4" 1 [demoFailedTask]).1.success = false := by
  have h1 := cancel_spec_amended 50 "t1" 1 [demoTask] (by simp)
  have h2 := cancel_spec_amended 50 "t4" 1 [demoFailedTask] (by simp)
  have hp := h1.2.2.2.2 demoTask rfl rfl (by intro h; cases h)
    (by intro h; cases h)
  refine ⟨hp.1, ?_, ?_⟩
  · rw [hp.2]
    rfl
  · rw [h2.2.2.2.1 demoFailedTask rfl rfl rfl]

/-- Every row of a task list falls in exactly one status bucket. -/
theorem status_partition (l : List Task) :
    (l.filter fun t => t.status = Status.pending).length
      + (l.filter fun t => t.status = Status.processing).length
      + (l.filter fun t => t.status = Status.completed).length
      + (l.filter fun t => t.status = Status.failed).length
      + (l.filter fun t => t.status = Status.cancelled).length
      = l.length := by
  induction l with
  | nil => rfl
  | cons h tl ih =>
    cases hs : h.status <;>
      simp [List.filter_cons, hs] <;> omega

/-- A cancelled sibling of the batch used in the C7 counterexample. -/
def demoBatchCancelled : Task :=
  { id := "s1", userId := 1, type := .generate, status := .cancelled
    progress := 0, inputData := {}, outputData := none
    errorMessage := none, batchId := some "b", createdAt := 0
    startedAt := none, completedAt := some 5 }

/-- C7 counterexample: a batch whose single sibling is cancelled has
`total = 1` but `pending + processing + completed + failed = 0`: the
aggregate identity of the claim fails as soon as a sibling is
cancelled. -/
theorem batchProgress_cancelled_breaks_sum_cex :
    (taskDb.getBatchProgress "b" [demoBatchCancelled]).pending
      + (taskDb.getBatchProgress "b" [demoBatchCancelled]).processing
      + (taskDb.getBatchProgress "b" [demoBatchCancelled]).completed
      + (taskDb.getBatchProgress "b" [demoBatchCancelled]).failed = 0
    ∧ (taskDb.getBatchProgress "b" [demoBatchCancelled]).total = 1 := by
  exact ⟨rfl, rfl⟩

/-- C7 amended: in every store state — hence at every point of every
operation sequence — the four reported buckets plus the number of
cancelled siblings equal `total`; the equality
`pending + processing + completed + failed = total` of the claim holds
exactly as long as no sibling is cancelled. -/
theorem batchProgress_sum_amended (batchId : String) (db : List Task) :
    (taskDb.getBatchProgress batchId db).pending
      + (taskDb.getBatchProgress batchId db).processing
      + (taskDb.getBatchProgress batchId db).completed
      + (taskDb.getBatchProgress batchId db).failed
      + ((db.filter fun t => t.batchId = some batchId).filter
          fun t => t.status = Status.cancelled).length
      = (taskDb.getBatchProgress batchId db).total
    ∧ ((∀ t ∈ db, t.batchId = some batchId →
          t.status ≠ Status.cancelled) →
        (taskDb.getBatchProgress batchId db).pending
          + (taskDb.getBatchProgress batchId db).processing
          + (taskDb.getBatchProgress batchId db).completed
          + (taskDb.getBatchProgress batchId db).failed
        = (taskDb.getBatchProgress batchId db).total) := by
  have hpart := status_partition (db.filter fun t => t.batchId = some batchId)
  constructor
  · simp only [taskDb.getBatchProgress]
    omega
  · intro hnone
    have hzero : ((db.filter fun t => t.batchId = some batchId).filter
        fun t => t.status = Status.cancelled) = [] := by
      rw [List.filter_eq_nil_iff]
      intro t htmem
      rw [List.mem_filter] at htmem
      have := hnone t htmem.1 (by simpa using htmem.2)
      simpa using this
    simp only [taskDb.getBatchProgress]
    rw [← hpart, hzero]
    simp

/-- A pending sibling of batch "b" used in the C7 witness. -/
def demoBatchPending : Task :=
  { id := "s2", userId := 1, type := .generate, status := .pending
    progress := 0, inputData := {}, outputData := none
    errorMessage := none, batchId := some "b", createdAt := 1
    startedAt := none, completedAt := none }

/-- A completed sibling of batch "b" used in the C7 witness. -/
def demoBatchCompleted : Task :=
  { id := "s3", userId := 1, type := .generate, status := .completed
    progress := 100, inputData := {}, outputData := none
    errorMessage := none, batchId := some "b", createdAt := 2
    startedAt := some 3, completedAt := some 4 }

theorem batchProgress_sum_amended_witness :
    (taskDb.getBatchProgress "b" [demoBatchPending, demoBatchCompleted]).pending
      + (taskDb.getBatchProgress "b" [demoBatchPending, demoBatchCompleted]).processing
      + (taskDb.getBatchProgress "b" [demoBatchPending, demoBatchCompleted]).completed
      + (taskDb.getBatchProgress "b" [demoBatchPending, demoBatchCompleted]).failed
    = (taskDb.getBatchProgress "b" [demoBatchPending, demoBatchCompleted]).total := by
  refine (batchProgress_sum_amended "b" _).2 ?_
  intro t ht hb
  rcases List.mem_cons.mp ht with rfl | ht2
  · intro h
    cases h
  · rcases List.mem_cons.mp ht2 with rfl | h3
    · intro h
      cases h
    · cases h3

/-! ### Concurrency-limited executor

`processWithConcurrencyLimit` walks the unit list, wraps each unit in a
promise that pushes its value into `results`, adds it to the `executing`
set, and awaits `Promise.race(executing)` whenever the set has reached
the bound; at the end it awaits `Promise.all(executing)`.  Promise
continuations only run at an await, so the embedding is a deterministic
scheduler: each deferred unit carries an abstract duration in ticks of
awaited time, an await advances time to the earliest settlement, and
every promise reaching that instant settles together, in insertion
order.  `Promise.race` adopts the first-settled promise of that batch:
if it rejected, the awaited race rejects and (the source attaches no
catch handler) the whole call aborts; if it fulfilled, the loop
continues — the fulfilled same-instant promises have pushed their
values, and a rejection settling after the adopted fulfilment is
swallowed, its promise already removed from `executing` by its
`finally`.  The final `Promise.all` instead rejects on the
earliest-settling rejection of the remaining snapshot.  Alongside the
result the embedding records a trace of the executing-set size after
every scheduler step. -/

/-- A deferred unit of work: once started it runs for `dur` ticks of
awaited time and then settles with `outcome` (`ok` models a fulfilled
promise, `error` a rejected one). -/
structure Deferred (A : Type) where
  dur : Nat
  outcome : Except String A
  deriving Repr

/-- A promise in the `executing` set: unit index, remaining ticks, and
its eventual settlement. -/
structure Running (A : Type) where
  idx : Nat
  rem : Nat
  outcome : Except String A
  deriving Repr

/-- Ticks until the earliest promise of the executing set settles. -/
def minRem {A : Type} : List (Running A) → Nat
  | [] => 0
  | e :: es => es.foldl (fun m r => min m r.rem) e.rem

/-- One `await` over the executing set: the promises reaching the
earliest settlement instant settle together; the rest keep running with
reduced remaining time.  Returns (settled, still running). -/
def raceSettle {A : Type} (ex : List (Running A)) :
    List (Running A) × List (Running A) :=
  (ex.filter fun e => e.rem = minRem ex,
   (ex.filter fun e => e.rem ≠ minRem ex).map
     fun e => { e with rem := e.rem - minRem ex })

/-- The value of a fulfilled settlement. -/
def valOf {A : Type} : Except String A → Option A
  | .ok a => some a
  | .error _ => none

/-- Values carried by the fulfilled units of a list. -/
def okVals {A : Type} (tasks : List (Deferred A)) : List A :=
  tasks.filterMap fun d => valOf d.outcome

/-- Values carried by the fulfilled promises of an executing set. -/
def runVals {A : Type} (ex : List (Running A)) : List A :=
  ex.filterMap fun e => valOf e.outcome

/-- The final `await Promise.all(executing)` over one settlement batch:
`Promise.all` rejects as soon as any member rejects, with the reason of
the earliest-settling rejection (list order breaks the tie within the
batch); when every member of the batch fulfils, each has pushed its
value on `results` in settlement order. -/
def collectResults {A : Type} :
    List (Running A) → List A → Except String (List A)
  | [], acc => .ok acc
  | e :: rest, acc =>
    match e.outcome with
    | .ok a => collectResults rest (acc ++ [a])
    | .error msg => .error msg

/-- One `await Promise.race(executing)` over the batch settling at the
earliest instant: the race adopts the first-settled promise, the head
of the batch in insertion order.  If it rejected, the race rejects and
the loop aborts with that error; if it fulfilled, the fulfilled
promises of the batch have pushed their values and a rejection settling
later in the same instant is swallowed — the race is already settled,
and the rejected promise leaves `executing` through its `finally`
before the final `Promise.all` snapshot is taken. -/
def raceCollect {A : Type} (settled : List (Running A)) (acc : List A) :
    Except String (List A) :=
  match settled with
  | [] => .ok acc
  | e :: rest =>
    match e.outcome with
    | .error msg => .error msg
    | .ok _ => .ok (acc ++ runVals (e :: rest))

theorem foldl_min_attained (l : List Nat) (a : Nat) :
    l.foldl min a = a ∨ l.foldl min a ∈ l := by
  induction l generalizing a with
  | nil => exact Or.inl rfl
  | cons x xs ih =>
    rw [List.foldl_cons]
    rcases ih (min a x) with h | h
    · rcases min_choice a x with hm | hm
      · exact Or.inl (h.trans hm)
      · exact Or.inr (List.mem_cons.mpr (Or.inl (h.trans hm)))
    · exact Or.inr (List.mem_cons.mpr (Or.inr h))

theorem minRem_attained {A : Type} (ex : List (Running A)) (h : ex ≠ []) :
    ∃ e ∈ ex, e.rem = minRem ex := by
  match ex with
  | e :: es =>
    have hfold : minRem (e :: es) = (es.map Running.rem).foldl min e.rem := by
      rw [minRem, List.foldl_map]
    rcases foldl_min_attained (es.map Running.rem) e.rem with h1 | h1
    · exact ⟨e, List.mem_cons_self _ _, by rw [hfold, h1]⟩
    · rw [← hfold] at h1
      obtain ⟨r, hr, hrem⟩ := List.mem_map.mp h1
      exact ⟨r, List.mem_cons.mpr (Or.inr hr), hrem⟩

theorem length_filter_lt_of_mem_neg {α : Type} (p : α → Bool)
    (l : List α) (a : α) (ha : a ∈ l) (hpa : p a = false) :
    (l.filter p).length < l.length := by
  induction l with
  | nil => cases ha
  | cons x xs ih =>
    rw [List.filter_cons]
    rcases List.mem_cons.mp ha with rfl | hmem
    · rw [hpa]
      exact Nat.lt_succ_of_le (List.length_filter_le p xs)
    · cases hp : p x <;> simp only [List.length_cons]
      · exact Nat.lt_succ_of_lt (ih hmem)
      · exact Nat.succ_lt_succ (ih hmem)

theorem raceSettle_still_lt {A : Type} (ex : List (Running A))
    (h : ex ≠ []) : (raceSettle ex).2.length < ex.length := by
  obtain ⟨e, he, hrem⟩ := minRem_attained ex h
  simp only [raceSettle, List.length_map]
  exact length_filter_lt_of_mem_neg _ ex e he (by simp [hrem])

/-- The final `await Promise.all(executing)`: settle repeatedly until
the executing set drains, collecting each value, aborting on the first
rejection. -/
def drainAll {A : Type} : List (Running A) → List A → List Nat →
    Except String (List A) × List Nat
  | [], acc, tr => (.ok acc, tr)
  | e :: es, acc, tr =>
    match collectResults (raceSettle (e :: es)).1 acc with
    | .error msg => (.error msg, tr ++ [(raceSettle (e :: es)).2.length])
    | .ok acc2 =>
      drainAll (raceSettle (e :: es)).2 acc2
        (tr ++ [(raceSettle (e :: es)).2.length])
termination_by ex _ _ => ex.length
decreasing_by exact raceSettle_still_lt (e :: es) (by simp)

/-- The for-loop of `processWithConcurrencyLimit`: start the next unit,
record the grown executing set, and when the set has reached the bound
await one race before continuing; a race whose first-settled promise
rejected aborts the loop. -/
def runCL {A : Type} (concurrency : Nat) :
    List (Deferred A) → List (Running A) → List A → Nat → List Nat →
      Except String (List A) × List Nat
  | [], ex, acc, _, tr => drainAll ex acc tr
  | d :: rest, ex, acc, i, tr =>
    let ex1 := ex ++ [⟨i, d.dur, d.outcome⟩]
    let tr1 := tr ++ [ex1.length]
    if concurrency ≤ ex1.length then
      match raceCollect (raceSettle ex1).1 acc with
      | .error e => (.error e, tr1 ++ [(raceSettle ex1).2.length])
      | .ok acc2 =>
        runCL concurrency rest (raceSettle ex1).2 acc2 (i + 1)
          (tr1 ++ [(raceSettle ex1).2.length])
    else
      runCL concurrency rest ex1 acc (i + 1) tr1

/-- `processWithConcurrencyLimit(tasks, concurrency)` together with the
trace of executing-set sizes after every scheduler step. -/
def processWithConcurrencyLimit {A : Type} (tasks : List (Deferred A))
    (concurrency : Nat) : Except String (List A) × List Nat :=
  runCL concurrency tasks [] [] 0 []

theorem collectResults_all_ok {A : Type} (l : List (Running A))
    (h : ∀ e ∈ l, ∃ a, e.outcome = Except.ok a) (acc : List A) :
    collectResults l acc = .ok (acc ++ runVals l) := by
  induction l generalizing acc with
  | nil => simp [collectResults, runVals]
  | cons e rest ih =>
    obtain ⟨a, ha⟩ := h e (List.mem_cons_self _ _)
    rw [collectResults, ha]
    dsimp only
    rw [ih (fun x hx => h x (List.mem_cons_of_mem _ hx)) (acc ++ [a])]
    simp [runVals, List.filterMap_cons, ha, valOf]

theorem raceCollect_all_ok {A : Type} (l : List (Running A))
    (h : ∀ e ∈ l, ∃ a, e.outcome = Except.ok a) (acc : List A) :
    raceCollect l acc = .ok (acc ++ runVals l) := by
  match l with
  | [] => simp [raceCollect, runVals]
  | e :: rest =>
    obtain ⟨a, ha⟩ := h e (List.mem_cons_self _ _)
    rw [raceCollect, ha]

theorem raceSettle_all_ok {A : Type} (ex : List (Running A))
    (h : ∀ e ∈ ex, ∃ a, e.outcome = Except.ok a) :
    (∀ e ∈ (raceSettle ex).1, ∃ a, e.outcome = Except.ok a)
    ∧ (∀ e ∈ (raceSettle ex).2, ∃ a, e.outcome = Except.ok a) := by
  constructor
  · intro e he
    exact h e (List.mem_filter.mp he).1
  · intro e he
    simp only [raceSettle, List.mem_map] at he
    obtain ⟨u, hu, rfl⟩ := he
    exact h u (List.mem_filter.mp hu).1

theorem raceSettle_vals_perm {A : Type} (ex : List (Running A)) :
    List.Perm (runVals (raceSettle ex).1 ++ runVals (raceSettle ex).2)
      (runVals ex) := by
  have hmap : runVals (raceSettle ex).2
      = runVals (ex.filter fun e => e.rem ≠ minRem ex) := by
    simp only [raceSettle, runVals, List.filterMap_map]
    rfl
  have hfil : (ex.filter fun e => e.rem ≠ minRem ex)
      = ex.filter fun e => !(decide (e.rem = minRem ex)) := by
    refine List.filter_congr fun e _ => ?_
    simp [decide_not]
  rw [hmap, hfil, raceSettle]
  dsimp only
  rw [runVals, runVals, ← List.filterMap_append]
  exact (List.filter_append_perm _ ex).filterMap _

theorem okVals_length_of_all_ok {A : Type} :
    ∀ tasks : List (Deferred A),
    (∀ d ∈ tasks, ∃ a, d.outcome = Except.ok a) →
    (okVals tasks).length = tasks.length := by
  intro tasks
  induction tasks with
  | nil => intro _; rfl
  | cons d rest ih =>
    intro h
    obtain ⟨a, ha⟩ := h d (List.mem_cons_self _ _)
    have ihr := ih fun x hx => h x (List.mem_cons_of_mem _ hx)
    simp only [okVals, List.filterMap_cons, ha, valOf, List.length_cons]
      at ihr ⊢
    omega

theorem coe_juggle2 {A : Type} (acc v1 v2 w : List A)
    (h : List.Perm (v1 ++ v2) w) :
    ((acc ++ v1 : List A) : Multiset A) + (v2 : Multiset A)
      = (acc : Multiset A) + (w : Multiset A) := by
  rw [Multiset.coe_add, Multiset.coe_add]
  apply Multiset.coe_eq_coe.mpr
  simpa [List.append_assoc] using h.append_left acc

theorem coe_shift {A : Type} (x : List A) (a : A) (y : List A) :
    ((x ++ [a] : List A) : Multiset A) + (y : Multiset A)
      = (x : Multiset A) + ((a :: y : List A) : Multiset A) := by
  rw [Multiset.coe_add, Multiset.coe_add]
  congr 1
  simp

theorem drainAll_all_ok {A : Type} :
    ∀ (n : Nat) (ex : List (Running A)), ex.length ≤ n →
    (∀ e ∈ ex, ∃ a, e.outcome = Except.ok a) →
    ∀ (acc : List A) (tr : List Nat),
    ∃ rs, (drainAll ex acc tr).1 = .ok rs
      ∧ (rs : Multiset A)
          = (acc : Multiset A) + (runVals ex : Multiset A) := by
  intro n
  induction n with
  | zero =>
    intro ex hlen _ acc tr
    rw [List.length_eq_zero.mp (Nat.le_zero.mp hlen)]
    exact ⟨acc, by simp [drainAll], by simp [runVals]⟩
  | succ n ih =>
    intro ex hlen hex acc tr
    match ex with
    | [] => exact ⟨acc, by simp [drainAll], by simp [runVals]⟩
    | e :: es =>
      have hco := collectResults_all_ok (raceSettle (e :: es)).1
        (raceSettle_all_ok _ hex).1 acc
      have hlt := raceSettle_still_lt (e :: es) (by simp)
      obtain ⟨rs, h1, h2⟩ := ih (raceSettle (e :: es)).2
        (by simp only [List.length_cons] at hlen hlt ⊢; omega)
        (raceSettle_all_ok _ hex).2
        (acc ++ runVals (raceSettle (e :: es)).1)
        (tr ++ [(raceSettle (e :: es)).2.length])
      refine ⟨rs, ?_, ?_⟩
      · rw [drainAll, hco]
        exact h1
      · rw [h2]
        exact coe_juggle2 _ _ _ _ (raceSettle_vals_perm (e :: es))

theorem runCL_all_ok {A : Type} (N : Nat) (queue : List (Deferred A)) :
    ∀ (ex : List (Running A)) (acc : List A) (i : Nat) (tr : List Nat),
    (∀ d ∈ queue, ∃ a, d.outcome = Except.ok a) →
    (∀ e ∈ ex, ∃ a, e.outcome = Except.ok a) →
    ∃ rs, (runCL N queue ex acc i tr).1 = .ok rs
      ∧ (rs : Multiset A)
          = (acc : Multiset A) + (runVals ex : Multiset A)
            + (okVals queue : Multiset A) := by
  induction queue with
  | nil =>
    intro ex acc i tr _ hex
    obtain ⟨rs, h1, h2⟩ := drainAll_all_ok ex.length ex le_rfl hex acc tr
    exact ⟨rs, h1, by simpa [okVals] using h2⟩
  | cons d rest ih =>
    intro ex acc i tr hq hex
    obtain ⟨a, ha⟩ := hq d (List.mem_cons_self _ _)
    have hex1 : ∀ e ∈ ex ++ [⟨i, d.dur, d.outcome⟩],
        ∃ b, e.outcome = Except.ok b := by
      intro e he
      rcases List.mem_append.mp he with h | h
      · exact hex e h
      · rw [List.mem_singleton.mp h]
        exact ⟨a, ha⟩
    have hex1vals : runVals (ex ++ [(⟨i, d.dur, d.outcome⟩ : Running A)])
        = runVals ex ++ [a] := by
      simp [runVals, List.filterMap_append, ha, valOf]
    have hqvals : okVals (d :: rest) = a :: okVals rest := by
      simp [okVals, List.filterMap_cons, ha, valOf]
    have hrest : ∀ x ∈ rest, ∃ b, x.outcome = Except.ok b :=
      fun x hx => hq x (List.mem_cons_of_mem _ hx)
    rw [runCL]
    by_cases hN : N ≤ (ex ++ [(⟨i, d.dur, d.outcome⟩ : Running A)]).length
    · rw [if_pos hN,
        raceCollect_all_ok _ (raceSettle_all_ok _ hex1).1 acc]
      dsimp only
      obtain ⟨rs, h1, h2⟩ :=
        ih (raceSettle (ex ++ [(⟨i, d.dur, d.outcome⟩ : Running A)])).2
          (acc ++ runVals
            (raceSettle (ex ++ [(⟨i, d.dur, d.outcome⟩ : Running A)])).1)
          (i + 1) _ hrest (raceSettle_all_ok _ hex1).2
      refine ⟨rs, h1, ?_⟩
      rw [h2]
      have hperm := raceSettle_vals_perm
        (ex ++ [(⟨i, d.dur, d.outcome⟩ : Running A)])
      rw [hex1vals] at hperm
      rw [coe_juggle2 _ _ _ _ hperm, hqvals, add_assoc, coe_shift,
        ← add_assoc]
    · rw [if_neg hN]
      obtain ⟨rs, h1, h2⟩ :=
        ih (ex ++ [(⟨i, d.dur, d.outcome⟩ : Running A)]) acc (i + 1)
          (tr ++ [(ex ++ [(⟨i, d.dur, d.outcome⟩ : Running A)]).length])
          hrest hex1
      refine ⟨rs, h1, ?_⟩
      rw [h2, hex1vals, hqvals, add_assoc, coe_shift, ← add_assoc]

theorem drainAll_trace_bound {A : Type} (B : Nat) :
    ∀ (n : Nat) (ex : List (Running A)), ex.length ≤ n → ex.length ≤ B →
    ∀ (acc : List A) (tr : List Nat), (∀ x ∈ tr, x ≤ B) →
    ∀ x ∈ (drainAll ex acc tr).2, x ≤ B := by
  intro n
  induction n with
  | zero =>
    intro ex hlen _ acc tr htr
    rw [List.length_eq_zero.mp (Nat.le_zero.mp hlen)]
    simpa [drainAll] using htr
  | succ n ih =>
    intro ex hlen hB acc tr htr
    match ex with
    | [] => simpa [drainAll] using htr
    | e :: es =>
      have hlt := raceSettle_still_lt (e :: es) (by simp)
      have htr2 : ∀ x ∈ tr ++ [(raceSettle (e :: es)).2.length], x ≤ B := by
        intro x hx
        rcases List.mem_append.mp hx with h | h
        · exact htr x h
        · rw [List.mem_singleton.mp h]
          omega
      rw [drainAll]
      cases hco : collectResults (raceSettle (e :: es)).1 acc with
      | error msg => exact htr2
      | ok acc2 =>
        refine ih (raceSettle (e :: es)).2 ?_ (by omega) acc2 _ htr2
        simp only [List.length_cons] at hlen hlt ⊢
        omega

theorem runCL_trace_bound {A : Type} (N : Nat) (queue : List (Deferred A)) :
    ∀ (ex : List (Running A)) (acc : List A) (i : Nat) (tr : List Nat),
    ex.length < N → (∀ x ∈ tr, x ≤ N) →
    ∀ x ∈ (runCL N queue ex acc i tr).2, x ≤ N := by
  induction queue with
  | nil =>
    intro ex acc i tr hlen htr
    exact drainAll_trace_bound N ex.length ex le_rfl (by omega) acc tr htr
  | cons d rest ih =>
    intro ex acc i tr hlen htr
    have hlen1 : (ex ++ [(⟨i, d.dur, d.outcome⟩ : Running A)]).length ≤ N := by
      simp only [List.length_append, List.length_singleton]
      omega
    have htr1 : ∀ x ∈ tr ++ [(ex ++ [(⟨i, d.dur, d.outcome⟩ : Running A)]).length],
        x ≤ N := by
      intro x hx
      rcases List.mem_append.mp hx with h | h
      · exact htr x h
      · rw [List.mem_singleton.mp h]
        exact hlen1
    rw [runCL]
    by_cases hN : N ≤ (ex ++ [(⟨i, d.dur, d.outcome⟩ : Running A)]).length
    · rw [if_pos hN]
      have hlt := raceSettle_still_lt
        (ex ++ [(⟨i, d.dur, d.outcome⟩ : Running A)]) (by simp)
      have hstill :
          (raceSettle (ex ++ [(⟨i, d.dur, d.outcome⟩ : Running A)])).2.length
            < N := by omega
      have htr2 : ∀ x ∈ (tr ++ [(ex ++ [(⟨i, d.dur, d.outcome⟩ : Running A)]).length])
          ++ [(raceSettle (ex ++ [(⟨i, d.dur, d.outcome⟩ : Running A)])).2.length],
          x ≤ N := by
        intro x hx
        rcases List.mem_append.mp hx with h | h
        · exact htr1 x h
        · rw [List.mem_singleton.mp h]
          omega
      cases hco : raceCollect
          (raceSettle (ex ++ [(⟨i, d.dur, d.outcome⟩ : Running A)])).1 acc with
      | error msg => exact htr2
      | ok acc2 => exact ih _ acc2 (i + 1) _ hstill htr2
    · rw [if_neg hN]
      exact ih _ acc (i + 1) _ (by omega) htr1

/-- Ten units whose third settles ahead of its peers and rejects, for
the C5 counterexample. -/
def tenUnitsOneRejecting : List (Deferred Nat) :=
  [⟨2, .ok 0⟩, ⟨2, .ok 1⟩, ⟨0, .error "boom"⟩, ⟨0, .ok 3⟩, ⟨0, .ok 4⟩,
   ⟨0, .ok 5⟩, ⟨0, .ok 6⟩, ⟨0, .ok 7⟩, ⟨0, .ok 8⟩, ⟨0, .ok 9⟩]

/-- Ten units of varied duration that all fulfil, for the C5 witness. -/
def tenOkUnits : List (Deferred Nat) :=
  [⟨3, .ok 0⟩, ⟨1, .ok 1⟩, ⟨2, .ok 2⟩, ⟨0, .ok 3⟩, ⟨5, .ok 4⟩,
   ⟨1, .ok 5⟩, ⟨0, .ok 6⟩, ⟨2, .ok 7⟩, ⟨1, .ok 8⟩, ⟨4, .ok 9⟩]

/-- C4 counterexample: with bound 1, a first unit that rejects makes
`processWithConcurrencyLimit` itself reject; the queued second unit
never starts and no result — not even the second unit's success value —
is collected. -/
theorem executor_rejecting_unit_aborts_cex :
    processWithConcurrencyLimit
      [⟨0, Except.error "boom"⟩, ⟨0, Except.ok (1 : Nat)⟩] 1
      = (Except.error "boom", [1, 0]) := rfl

/-- C4 amended: when every unit resolves, the executor runs every unit
and collects each success value exactly once (the result is a
permutation of the unit values and has one entry per unit); the
executor itself captures no per-unit errors — a rejecting unit rejects
the whole call and the units queued behind it never run (see the
counterexample). -/
theorem executor_all_resolve_collects {A : Type}
    (tasks : List (Deferred A)) (concurrency : Nat)
    (h : ∀ d ∈ tasks, ∃ a, d.outcome = Except.ok a) :
    ∃ rs, (processWithConcurrencyLimit tasks concurrency).1 = .ok rs
      ∧ (rs : Multiset A) = (okVals tasks : Multiset A)
      ∧ rs.length = tasks.length := by
  obtain ⟨rs, h1, h2⟩ :=
    runCL_all_ok concurrency tasks [] [] 0 [] h (by simp)
  have h2s : (rs : Multiset A) = (okVals tasks : Multiset A) := by
    simpa [runVals] using h2
  refine ⟨rs, h1, h2s, ?_⟩
  have hcard := congrArg Multiset.card h2s
  simpa [okVals_length_of_all_ok tasks h] using hcard

theorem executor_all_resolve_collects_witness :
    ∃ rs, (processWithConcurrencyLimit
        [⟨0, Except.ok (7 : Nat)⟩, ⟨2, Except.ok 8⟩, ⟨1, Except.ok 9⟩] 2).1
        = Except.ok rs
      ∧ (rs : Multiset Nat)
          = (okVals [(⟨0, Except.ok (7 : Nat)⟩ : Deferred Nat),
              ⟨2, Except.ok 8⟩, ⟨1, Except.ok 9⟩] : Multiset Nat)
      ∧ rs.length = 3 := by
  have h := executor_all_resolve_collects
    [⟨0, Except.ok (7 : Nat)⟩, ⟨2, Except.ok 8⟩, ⟨1, Except.ok 9⟩] 2
    (by
      intro d hd
      fin_cases hd
      · exact ⟨7, rfl⟩
      · exact ⟨8, rfl⟩
      · exact ⟨9, rfl⟩)
  simpa using h

/-- C5 counterexample: ten units under bound 3 where the third unit is
the first to settle in the awaited race and rejects: the race adopts
the rejection, the call aborts with the error, and the ten units do not
all complete — the last seven are never started. -/
theorem executor_ten_units_reject_cex :
    processWithConcurrencyLimit tenUnitsOneRejecting 3
      = (Except.error "boom", [1, 2, 3, 2]) := rfl

/-- A rejection that settles in the same instant as an earlier
fulfilment is swallowed by the race: with ten immediate units whose
third rejects, the first-settled promise of every awaited race is
fulfilled, so the call resolves, every unit runs, and the rejected unit
merely contributes no result — nine values come back. -/
theorem executor_same_instant_rejection_swallowed :
    processWithConcurrencyLimit
      [⟨0, Except.ok (0 : Nat)⟩, ⟨0, .ok 1⟩, ⟨0, .error "boom"⟩,
       ⟨0, .ok 3⟩, ⟨0, .ok 4⟩, ⟨0, .ok 5⟩, ⟨0, .ok 6⟩, ⟨0, .ok 7⟩,
       ⟨0, .ok 8⟩, ⟨0, .ok 9⟩] 3
      = (Except.ok [0, 1, 3, 4, 5, 6, 7, 8, 9],
         [1, 2, 3, 0, 1, 2, 3, 0, 1, 2, 3, 0, 1, 0]) := by
  simp [processWithConcurrencyLimit, runCL, drainAll, raceSettle,
    raceCollect, collectResults, minRem, runVals, valOf]

/-- C5 (bound part confirmed, completion part amended): for every unit
list and every bound N ≥ 1, the executing set never exceeds N units —
every entry of the scheduler trace is at most N — and whenever every
unit resolves, all units complete exactly once (one collected result per
unit); the unconditional completion stated by the claim fails when a
unit rejects ahead of its peers: a rejection that settles first in an
awaited race aborts the call with units still unstarted (see the
counterexample), while a rejection settling after a same-instant
fulfilment is swallowed and merely contributes no result. -/
theorem executor_inflight_bound_and_completion {A : Type}
    (tasks : List (Deferred A)) (N : Nat) (hN : 1 ≤ N) :
    (∀ x ∈ (processWithConcurrencyLimit tasks N).2, x ≤ N)
    ∧ ((∀ d ∈ tasks, ∃ a, d.outcome = Except.ok a) →
        ∃ rs, (processWithConcurrencyLimit tasks N).1 = .ok rs
          ∧ rs.length = tasks.length) := by
  constructor
  · exact runCL_trace_bound N tasks [] [] 0 []
      (by simp only [List.length_nil]; omega) (by simp)
  · intro h
    obtain ⟨rs, h1, _, h3⟩ := executor_all_resolve_collects tasks N h
    exact ⟨rs, h1, h3⟩

theorem executor_inflight_bound_and_completion_witness :
    (∀ x ∈ (processWithConcurrencyLimit tenOkUnits 3).2, x ≤ 3)
    ∧ ∃ rs, (processWithConcurrencyLimit tenOkUnits 3).1 = .ok rs
        ∧ rs.length = 10 := by
  have h := executor_inflight_bound_and_completion tenOkUnits 3 (by omega)
  refine ⟨h.1, ?_⟩
  have h2 := h.2 (by
    intro d hd
    fin_cases hd
    · exact ⟨0, rfl⟩
    · exact ⟨1, rfl⟩
    · exact ⟨2, rfl⟩
    · exact ⟨3, rfl⟩
    · exact ⟨4, rfl⟩
    · exact ⟨5, rfl⟩
    · exact ⟨6, rfl⟩
    · exact ⟨7, rfl⟩
    · exact ⟨8, rfl⟩
    · exact ⟨9, rfl⟩)
  simpa [tenOkUnits] using h2

/-! ### Task processor

`processTask` (validators.ts) loads the task, no-ops unless the loaded
status is pending or processing, fires the CAS when pending — discarding
its boolean result (source lines 188-191) — and dispatches on the task
type inside a try/catch whose catch converts any collaborator error into
`fail`.  The embedding threads a `World` (task table, saved images,
prompt-history count, uuid counter, event trace) and reads the
collaborators from a `PEnv` of oracles.  `crypto.randomUUID()` is
modelled as a function of a per-world counter.  The trace records the
order of store writes and collaborator calls, which is what the ordering
claims are about. -/

inductive Ev where
  | createTask (id : String)
  | casStart (id : String)
  | genInvoke
  | artifactSaved (imageId : String)
  | completedTask (id : String)
  | failedTask (id : String)
  | dispatchedBatch (batchId : String) (concurrency : Nat)
  deriving DecidableEq, Repr

/-- The `config` object stored with a generated image at the three
`imageDb.save` call sites. -/
inductive ImgConfig where
  | eyewear (m : ModelConfig)
  | template (templateId templateName : Option String)
      (variableValues : List (String × String)) (customPrompt : Bool)
  | shot (angle : String) (c : ShotConfig)
  deriving DecidableEq, Repr

/-- A row of `generated_images` as written by `imageDb.save`. -/
structure SavedImage where
  id : String
  url : String
  thumbnailUrl : String
  type : String
  config : ImgConfig
  prompt : Option String
  userId : Int
  deriving DecidableEq, Repr

/-- The mutable state one processor invocation touches. -/
structure World where
  db : List Task
  images : List SavedImage
  promptHistoryCount : Nat
  uuidCtr : Nat
  trace : List Ev
  deriving Repr

/-- Collaborator oracles for a processor run: the three generation entry
points and the storage collaborator (each may raise, modelled as
`Except`), the uuid supply, and the wall clock used for every store
write of the run. -/
structure PEnv where
  genEyewear : String → String → ModelConfig → String → Except String String
  genTemplate : String → String → String → Except String String
  genShot : String → String → ShotConfig → Except String String
  saveImage : String → Int → String → Except String (String × String)
  uuid : Nat → String
  now : Int

/-- JS `x || d` on an optional string field: absence and the empty
string are both falsy. -/
def strOr (o : Option String) (d : String) : String :=
  match o with
  | none => d
  | some s => if s = "" then d else s

/-- JS truthiness of an optional string field. -/
def truthyStr (o : Option String) : Bool :=
  match o with
  | none => false
  | some s => s ≠ ""

/-- JS `(x as number) || d`: absence and 0 are falsy. -/
def intOr (o : Option Int) (d : Int) : Int :=
  match o with
  | none => d
  | some c => if c = 0 then d else c

/-- The batch loop substitution: every `\x7bkey\x7d` occurrence in the
base prompt is replaced by the combination value (the source uses a
global-flag RegExp, i.e. replace-all). -/
def substVars (basePrompt : String) (combo : List (String × String)) :
    String :=
  combo.foldl
    (fun p kv => p.replace ("\x7b" ++ kv.1 ++ "\x7d") kv.2) basePrompt

/-- `taskDb.fail` plus its trace event. -/
def World.failTask (env : PEnv) (taskId msg : String) (w : World) :
    World :=
  { w with db := (taskDb.fail env.now taskId msg w.db).2
           trace := w.trace ++ [Ev.failedTask taskId] }

/-- `taskDb.complete` plus its trace event. -/
def World.completeTask (env : PEnv) (taskId : String) (od : OutputData)
    (w : World) : World :=
  { w with db := (taskDb.complete env.now taskId od w.db).2
           trace := w.trace ++ [Ev.completedTask taskId] }

/-- `crypto.randomUUID()`: the next value of the uuid supply. -/
def World.freshUuid (env : PEnv) (w : World) : String × World :=
  (env.uuid w.uuidCtr, { w with uuidCtr := w.uuidCtr + 1 })

/-- The common save logic of the generate branch (validators.ts lines
361-388): fresh image id, storage persist (a raised storage error falls
into the same catch and becomes `fail`), `imageDb.save`, `complete`. -/
def finishSave (env : PEnv) (taskId : String) (task : Task)
    (imageType : String) (config : ImgConfig) (savePrompt : Option String)
    (artifact : String) (w : World) : Bool × World :=
  let p := w.freshUuid env
  let imageId := p.1
  let w := p.2
  match env.saveImage artifact task.userId imageId with
  | .error e => (false, w.failTask env taskId e)
  | .ok (url, thumbnailUrl) =>
    let img : SavedImage :=
      { id := imageId, url := url, thumbnailUrl := thumbnailUrl
        type := imageType, config := config, prompt := savePrompt
        userId := task.userId }
    let w := { w with images := w.images ++ [img]
                      trace := w.trace ++ [Ev.artifactSaved imageId] }
    let w := w.completeTask env taskId
      { success := true, imageUrl := some url
        thumbnailUrl := some thumbnailUrl, imageId := some imageId }
    (true, w)

/-- The single-generation branch (`task.type = generate`): eyewear
generation when `input.modelConfig` is set, template/custom-prompt
generation when `input.prompt` is truthy, otherwise the
invalid-input throw that the catch converts to `fail`. -/
def processGenerate (env : PEnv) (taskId : String) (task : Task)
    (w : World) : Bool × World :=
  let input := task.inputData
  let imageBase64 := input.imageBase64
  match input.modelConfig with
  | some mc =>
    let size := strOr input.imageQuality "1K"
    let gender := strOr input.gender "female"
    let w := { w with trace := w.trace ++ [Ev.genInvoke] }
    match env.genEyewear imageBase64 size mc gender with
    | .error e => (false, w.failTask env taskId e)
    | .ok artifact =>
      finishSave env taskId task "eyewear" (ImgConfig.eyewear mc) none
        artifact w
  | none =>
    if truthyStr input.prompt then
      let prompt := input.prompt.getD ""
      let aspectRatio := strOr input.aspectRatio "3:4"
      let w := { w with trace := w.trace ++ [Ev.genInvoke] }
      match env.genTemplate imageBase64 prompt aspectRatio with
      | .error e => (false, w.failTask env taskId e)
      | .ok artifact =>
        let w := if truthyStr input.templateId
            && input.templateId ≠ some "custom" then
            { w with promptHistoryCount := w.promptHistoryCount + 1 }
          else w
        finishSave env taskId task "template"
          (ImgConfig.template input.templateId input.templateName
            input.variableValues (!truthyStr input.templateId))
          (some prompt) artifact w
    else
      (false, w.failTask env taskId
        "Invalid task input: missing prompt or modelConfig")

/-- The product-shot branch: one generation call for the requested
angle, then save and complete. -/
def processProductShot (env : PEnv) (taskId : String) (task : Task)
    (w : World) : Bool × World :=
  let input := task.inputData
  let angle := input.angle
  let config := input.config
  let w := { w with trace := w.trace ++ [Ev.genInvoke] }
  match env.genShot input.imageBase64 angle config with
  | .error e => (false, w.failTask env taskId e)
  | .ok artifact =>
    let p := w.freshUuid env
    let imageId := p.1
    let w := p.2
    match env.saveImage artifact task.userId imageId with
    | .error e => (false, w.failTask env taskId e)
    | .ok (url, thumbnailUrl) =>
      let img : SavedImage :=
        { id := imageId, url := url, thumbnailUrl := thumbnailUrl
          type := "product_shot", config := ImgConfig.shot angle config
          prompt := none, userId := task.userId }
      let w := { w with images := w.images ++ [img]
                        trace := w.trace ++ [Ev.artifactSaved imageId] }
      let w := w.completeTask env taskId
        { success := true, angle := some angle, imageUrl := some url
          thumbnailUrl := some thumbnailUrl, imageId := some imageId }
      (true, w)

/-- One iteration of the sibling-creation loop of the batch branch:
substitute the combination into the base prompt, draw a fresh sibling
id, and insert the pending sibling row carrying the shared batch id. -/
def createSiblingStep (env : PEnv) (task : Task)
    (aspectRatio batchId : String) (w : World)
    (combo : List (String × String)) : World :=
  let prompt := substVars task.inputData.basePrompt combo
  let q := w.freshUuid env
  let subTaskId := q.1
  let w := q.2
  { w with
    db := (taskDb.create env.now subTaskId task.userId TaskType.generate
      { imageBase64 := task.inputData.imageBase64, prompt := some prompt
        aspectRatio := some aspectRatio
        templateId := task.inputData.templateId
        templateName := task.inputData.templateName
        variableValues := combo } (some batchId) w.db).2
    trace := w.trace ++ [Ev.createTask subTaskId] }

/-- `processTask(env, taskId)`.  `interf` injects the store writes of
concurrent workers delivered between the initial read and the CAS
(identity for an isolated run); recursive sibling invocations run
isolated.  `fuel` bounds the recursion depth batch → sibling: every
sibling is created with type `generate`, so depth 2 is exact and the
fuel-0 fallback is unreachable from the entry points.  The batch branch
inlines `processBatchTasks`: it reads the pending siblings of the fresh
batch id and drives each through a recursive `processTask` call — the
source hands them to `processWithConcurrencyLimit` with the clamped
bound and per-sibling jitter; since every invocation touches only its
own task id, the store effect is their list-order composition, and the
`dispatchedBatch` event records the bound handed to the executor. -/
def processTask (env : PEnv) (interf : List Task → List Task) :
    Nat → String → World → Bool × World
  | 0, _, w => (false, w)
  | fuel + 1, taskId, w =>
    match taskDb.getById taskId w.db with
    | none => (false, w)
    | some task =>
      if task.status ≠ Status.pending ∧ task.status ≠ Status.processing
      then
        (false, w)
      else
        let w := { w with db := interf w.db }
        let w := if task.status = Status.pending then
            { w with db := (taskDb.startProcessing env.now taskId w.db).2
                     trace := w.trace ++ [Ev.casStart taskId] }
          else w
        match task.type with
        | .batch =>
          let input := task.inputData
          let aspectRatio := strOr input.aspectRatio "3:4"
          let concurrency :=
            (min 5 (max 1 (intOr input.concurrency 3))).toNat
          let p := w.freshUuid env
          let batchId := p.1
          let w := p.2
          let w := input.combinations.foldl
            (createSiblingStep env task aspectRatio batchId) w
          let w := w.completeTask env taskId
            { success := true, batchId := some batchId
              subTaskCount := some input.combinations.length
              message := some ("Successfully created "
                ++ toString input.combinations.length
                ++ " generation tasks") }
          let pendingTasks :=
            (taskDb.getByBatchId batchId w.db).filter
              fun t => t.status = Status.pending
          let w :=
            if pendingTasks.isEmpty then w
            else
              let w := { w with trace := w.trace
                ++ [Ev.dispatchedBatch batchId concurrency] }
              pendingTasks.foldl
                (fun w t => (processTask env (fun d => d) fuel t.id w).2) w
          (true, w)
        | .product_shot => processProductShot env taskId task w
        | .generate => processGenerate env taskId task w

/-- Oracles used by the concrete processor runs: generation and storage
always succeed, uuids are drawn from a counter. -/
def demoEnv : PEnv :=
  { genEyewear := fun _ _ _ _ => .ok "art"
    genTemplate := fun _ _ _ => .ok "art"
    genShot := fun _ _ _ => .ok "art"
    saveImage := fun _ _ _ => .ok ("u.png", "t.png")
    uuid := fun n => "uuid-" ++ toString n
    now := 500 }

/-- A pending single-generation task with a prompt. -/
def demoGenTask : Task :=
  { id := "g1", userId := 1, type := .generate, status := .pending
    progress := 0
    inputData := { imageBase64 := "img", prompt := some "p" }
    outputData := none, errorMessage := none, batchId := none
    createdAt := 0, startedAt := none, completedAt := none }

/-- The store write of a concurrent worker that claims task g1 between
our read and our CAS. -/
def rivalWrite (db : List Task) : List Task :=
  (taskDb.startProcessing 499 "g1" db).2

/-- The initial world of the C2 run. -/
def demoWorld : World :=
  { db := [demoGenTask], images := [], promptHistoryCount := 0
    uuidCtr := 0, trace := [] }

/-- C2 (code bug): task g1 is loaded as pending, a concurrent worker
wins the CAS in between, so our own `startProcessing` returns false —
the claimed behaviour is a no-op, but `processTask` discards the CAS
result and still invokes the generation collaborator, persists the
artifact, completes the task and reports true.  The second conjunct
evaluates exactly the CAS call the run performs and shows it was
lost. -/
theorem processTask_lost_cas_still_runs :
    (processTask demoEnv rivalWrite 2 "g1" demoWorld).2.trace
      = [Ev.casStart "g1", Ev.genInvoke, Ev.artifactSaved "uuid-0",
         Ev.completedTask "g1"]
    ∧ (taskDb.startProcessing 500 "g1" (rivalWrite [demoGenTask])).1
        = false
    ∧ (taskDb.getById "g1"
        (processTask demoEnv rivalWrite 2 "g1" demoWorld).2.db).map
          Task.status = some Status.completed
    ∧ (processTask demoEnv rivalWrite 2 "g1" demoWorld).2.images.length
        = 1
    ∧ (processTask demoEnv rivalWrite 2 "g1" demoWorld).1 = true := by
  exact ⟨rfl, rfl, rfl, rfl, rfl⟩

/-! ### Queue consumer (broker-backed dispatcher) -/

/-- A broker delivery: the message-body field the consumer reads plus
the runtime attempt counter. -/
structure QMessage where
  taskId : String
  attempts : Nat
  deriving DecidableEq, Repr

/-- The broker disposition the consumer requests for one delivery. -/
inductive QDisposition where
  | acked
  | retried (delaySeconds : Nat)
  deriving DecidableEq, Repr

/-- One iteration of the queue consumer for one delivery (part_001
lines 1698-1724), parameterised by the outcome of the `processTask`
call: `none` models a normal return (ack), `some e` a thrown exception
with message `e` — the catch handler then writes `fail` on the task and
either retries with delay `2^attempts * 10` seconds while
`attempts < 3` or acknowledges into the dead-letter queue.  JS
`error.message || defaultMsg` maps an empty message to the default. -/
def queueHandleMessage (now : Int) (msg : QMessage)
    (procError : Option String) (db : List Task) :
    List Task × QDisposition :=
  match procError with
  | none => (db, .acked)
  | some e =>
    ((taskDb.fail now msg.taskId (if e = "" then "处理失败" else e) db).2,
     if msg.attempts < 3 then .retried (2 ^ msg.attempts * 10)
     else .acked)

/-- The broker redelivery loop for a message whose processing throws on
every delivery: after each `retry()` the broker redelivers with the
attempt counter incremented (the `attempts < 3` guard mirrors the retry
condition inside `queueHandleMessage`, which is what makes each
non-final step a retry).  Returns the final store and the number of
deliveries until the message is acknowledged. -/
def deliverUntilAck (now : Int) (taskId : String) (e : String)
    (attempts : Nat) (db : List Task) : List Task × Nat :=
  if attempts < 3 then
    let r := deliverUntilAck now taskId e (attempts + 1)
      (queueHandleMessage now ⟨taskId, attempts⟩ (some e) db).1
    (r.1, r.2 + 1)
  else
    ((queueHandleMessage now ⟨taskId, attempts⟩ (some e) db).1, 1)
termination_by 3 - attempts
decreasing_by omega

/-- An UPDATE whose SET clause keeps ids intact keeps the id column of
the table intact. -/
theorem sqlUpdate_map_id (c : Task → Bool) (f : Task → Task)
    (hf : ∀ u, (f u).id = u.id) (db : List Task) :
    (sqlUpdate c f db).2.map Task.id = db.map Task.id := by
  rw [sqlUpdate_snd, List.map_map]
  refine List.map_congr_left fun t _ => ?_
  dsimp only [Function.comp]
  split
  · exact hf t
  · rfl

/-- After the catch handler has run, the referenced task reads back
failed (any previous record of that id is overwritten). -/
theorem queueHandleMessage_fail_read (now : Int) (msg : QMessage)
    (e : String) (db : List Task) (hu : (db.map Task.id).Nodup)
    (t : Task) (ht : t ∈ db) (htid : t.id = msg.taskId) :
    taskDb.getById msg.taskId
        (queueHandleMessage now msg (some e) db).1
      = some { t with status := .failed
                      errorMessage := some (if e = "" then "处理失败" else e)
                      completedAt := some now } := by
  have hfst : (queueHandleMessage now msg (some e) db).1
      = (taskDb.fail now msg.taskId
          (if e = "" then "处理失败" else e) db).2 := rfl
  rw [hfst, taskDb.fail, ← htid]
  exact getById_sqlUpdate_of_pos _ _ (by intro u; rfl) db t hu ht
    (by simp [htid])

theorem queueHandleMessage_map_id (now : Int) (msg : QMessage)
    (e : String) (db : List Task) :
    (queueHandleMessage now msg (some e) db).1.map Task.id
      = db.map Task.id := by
  have hfst : (queueHandleMessage now msg (some e) db).1
      = (taskDb.fail now msg.taskId
          (if e = "" then "处理失败" else e) db).2 := rfl
  rw [hfst, taskDb.fail]
  exact sqlUpdate_map_id _ _ (by intro u; rfl) db

theorem deliverUntilAck_failed (now : Int) (tid e : String) :
    ∀ (k attempts : Nat), 3 - attempts ≤ k →
    ∀ (db : List Task), (db.map Task.id).Nodup →
    ∀ t ∈ db, t.id = tid →
    (taskDb.getById tid (deliverUntilAck now tid e attempts db).1).map
        Task.status = some Status.failed
    ∧ (deliverUntilAck now tid e attempts db).2 = (3 - attempts) + 1 := by
  intro k
  induction k with
  | zero =>
    intro attempts hk db hu t ht htid
    have h3 : ¬ attempts < 3 := by omega
    rw [deliverUntilAck, if_neg h3]
    rw [queueHandleMessage_fail_read now ⟨tid, attempts⟩ e db hu t ht htid]
    exact ⟨rfl, by omega⟩
  | succ k ih =>
    intro attempts hk db hu t ht htid
    by_cases h3 : attempts < 3
    · rw [deliverUntilAck, if_pos h3]
      have hu1 : ((queueHandleMessage now ⟨tid, attempts⟩ (some e) db).1.map
          Task.id).Nodup := by
        rw [queueHandleMessage_map_id]
        exact hu
      have hfst : (queueHandleMessage now ⟨tid, attempts⟩ (some e) db).1
          = (taskDb.fail now tid
              (if e = "" then "处理失败" else e) db).2 := rfl
      have ht1 : ({ t with
            status := Status.failed
            errorMessage := some (if e = "" then "处理失败" else e)
            completedAt := some now } : Task)
          ∈ (queueHandleMessage now ⟨tid, attempts⟩ (some e) db).1 := by
        rw [hfst, taskDb.fail, sqlUpdate_snd]
        have hm := List.mem_map_of_mem
          (fun u => if (u.id = tid : Bool)
            then { u with status := Status.failed
                          errorMessage :=
                            some (if e = "" then "处理失败" else e)
                          completedAt := some now } else u) ht
        simpa [htid] using hm
      have hrec := ih (attempts + 1) (by omega) _ hu1 _ ht1 (by simp [htid])
      constructor
      · exact hrec.1
      · show (deliverUntilAck now tid e (attempts + 1)
            (queueHandleMessage now ⟨tid, attempts⟩ (some e) db).1).2 + 1
            = 3 - attempts + 1
        rw [hrec.2]
        omega
    · have h0 : 3 - attempts = 0 := by omega
      rw [deliverUntilAck, if_neg h3]
      rw [queueHandleMessage_fail_read now ⟨tid, attempts⟩ e db hu t ht htid]
      exact ⟨rfl, by omega⟩

/-- C9: on a successful `processTask` the consumer acknowledges and
leaves the store alone; on an exception it first writes `fail` on the
referenced task (status failed, the error message, completed_at), then
requests redelivery with delay `2^attempts * 10` seconds while the
attempt counter is below the maximum of 3, and acknowledges once
attempts are exhausted; a message whose processing throws on every
delivery is acknowledged after `3 - attempts + 1` deliveries with the
task left failed — never retried indefinitely. -/
theorem queue_error_path_spec (now : Int) (msg : QMessage) (e : String)
    (db : List Task) (hu : (db.map Task.id).Nodup) (he : e ≠ "") :
    (queueHandleMessage now msg none db = (db, .acked))
    ∧ (∀ t ∈ db, t.id = msg.taskId →
        taskDb.getById msg.taskId
            (queueHandleMessage now msg (some e) db).1
          = some { t with status := .failed, errorMessage := some e
                          completedAt := some now })
    ∧ (msg.attempts < 3 →
        (queueHandleMessage now msg (some e) db).2
          = .retried (2 ^ msg.attempts * 10))
    ∧ (3 ≤ msg.attempts →
        (queueHandleMessage now msg (some e) db).2 = .acked)
    ∧ (∀ t ∈ db, t.id = msg.taskId →
        (taskDb.getById msg.taskId
            (deliverUntilAck now msg.taskId e msg.attempts db).1).map
          Task.status = some Status.failed
        ∧ (deliverUntilAck now msg.taskId e msg.attempts db).2
            = (3 - msg.attempts) + 1) := by
  have hsnd : (queueHandleMessage now msg (some e) db).2
      = if msg.attempts < 3 then
          QDisposition.retried (2 ^ msg.attempts * 10)
        else QDisposition.acked := rfl
  refine ⟨rfl, ?_, ?_, ?_, ?_⟩
  · intro t ht htid
    rw [queueHandleMessage_fail_read now msg e db hu t ht htid,
      if_neg he]
  · intro h3
    rw [hsnd, if_pos h3]
  · intro h3
    rw [hsnd, if_neg (by omega : ¬ msg.attempts < 3)]
  · intro t ht htid
    exact deliverUntilAck_failed now msg.taskId e (3 - msg.attempts)
      msg.attempts le_rfl db hu t ht htid

theorem queue_error_path_spec_witness :
    queueHandleMessage 600 ⟨"t1", 1⟩ none [demoTask]
      = ([demoTask], .acked)
    ∧ (queueHandleMessage 600 ⟨"t1", 1⟩ (some "quota exceeded")
        [demoTask]).2 = .retried 20
    ∧ (taskDb.getById "t1"
        (queueHandleMessage 600 ⟨"t1", 1⟩ (some "quota exceeded")
          [demoTask]).1).map Task.status = some Status.failed
    ∧ (deliverUntilAck 600 "t1" "quota exceeded" 1 [demoTask]).2 = 3 := by
  have h := queue_error_path_spec 600 ⟨"t1", 1⟩ "quota exceeded"
    [demoTask] (by simp) (by decide)
  refine ⟨h.1, h.2.2.1 (by decide), ?_, ?_⟩
  · rw [h.2.1 demoTask (by simp) rfl]
    rfl
  · rw [(h.2.2.2.2 demoTask (by simp) rfl).2]
    rfl

/-! ### Batch-parent dispatch (C10 infrastructure) -/

/-- The sibling row the batch loop inserts for combination `combo` when
the uuid counter stands at `n`. -/
def mkSibling (env : PEnv) (task : Task) (aspectRatio batchId : String)
    (n : Nat) (combo : List (String × String)) : Task :=
  { id := env.uuid n, userId := task.userId, type := .generate
    status := .pending, progress := 0
    inputData := { imageBase64 := task.inputData.imageBase64
                   prompt := some (substVars task.inputData.basePrompt combo)
                   aspectRatio := some aspectRatio
                   templateId := task.inputData.templateId
                   templateName := task.inputData.templateName
                   variableValues := combo }
    outputData := none, errorMessage := none, batchId := some batchId
    createdAt := env.now, startedAt := none, completedAt := none }

/-- The rows the whole batch loop inserts, in creation order. -/
def siblingRows (env : PEnv) (task : Task) (aspectRatio batchId : String) :
    Nat → List (List (String × String)) → List Task
  | _, [] => []
  | n, combo :: rest =>
    mkSibling env task aspectRatio batchId n combo
      :: siblingRows env task aspectRatio batchId (n + 1) rest

theorem createSiblingStep_eq (env : PEnv) (task : Task)
    (ar b : String) (w : World) (combo : List (String × String)) :
    createSiblingStep env task ar b w combo
      = { w with db := w.db ++ [mkSibling env task ar b w.uuidCtr combo]
                 uuidCtr := w.uuidCtr + 1
                 trace := w.trace ++ [Ev.createTask (env.uuid w.uuidCtr)] } :=
  rfl

theorem createFold_spec (env : PEnv) (task : Task) (ar b : String) :
    ∀ (combos : List (List (String × String))) (w : World),
    (combos.foldl (createSiblingStep env task ar b) w).db
        = w.db ++ siblingRows env task ar b w.uuidCtr combos
    ∧ (combos.foldl (createSiblingStep env task ar b) w).trace
        = w.trace ++ (siblingRows env task ar b w.uuidCtr combos).map
            (fun t => Ev.createTask t.id)
    ∧ (combos.foldl (createSiblingStep env task ar b) w).uuidCtr
        = w.uuidCtr + combos.length := by
  intro combos
  induction combos with
  | nil =>
    intro w
    exact ⟨by simp [siblingRows], by simp [siblingRows], rfl⟩
  | cons combo rest ih =>
    intro w
    rw [List.foldl_cons, createSiblingStep_eq]
    obtain ⟨h1, h2, h3⟩ := ih
      { w with db := w.db ++ [mkSibling env task ar b w.uuidCtr combo]
               uuidCtr := w.uuidCtr + 1
               trace := w.trace ++ [Ev.createTask (env.uuid w.uuidCtr)] }
    refine ⟨?_, ?_, ?_⟩
    · rw [h1]
      simp [siblingRows, mkSibling]
    · rw [h2]
      simp [siblingRows, mkSibling]
    · rw [h3]
      simp
      omega

theorem siblingRows_mem (env : PEnv) (task : Task) (ar b : String) :
    ∀ (combos : List (List (String × String))) (n : Nat),
    ∀ t ∈ siblingRows env task ar b n combos,
      t.batchId = some b ∧ t.status = Status.pending
      ∧ t.type = TaskType.generate
      ∧ ∃ i, i < combos.length ∧ t.id = env.uuid (n + i) := by
  intro combos
  induction combos with
  | nil =>
    intro n t ht
    cases ht
  | cons combo rest ih =>
    intro n t ht
    rcases List.mem_cons.mp ht with rfl | ht2
    · exact ⟨rfl, rfl, rfl, 0, by simp, by simp [mkSibling]⟩
    · obtain ⟨hb, hs, hty, i, hi, hid⟩ := ih (n + 1) t ht2
      exact ⟨hb, hs, hty, i + 1, by simpa using hi,
        by rw [hid]; congr 1; omega⟩

theorem siblingRows_length (env : PEnv) (task : Task) (ar b : String) :
    ∀ (combos : List (List (String × String))) (n : Nat),
    (siblingRows env task ar b n combos).length = combos.length := by
  intro combos
  induction combos with
  | nil => intro n; rfl
  | cons combo rest ih =>
    intro n
    simp [siblingRows, ih (n + 1)]

/-- Facts a processor run on one non-batch task id preserves about the
table: the id, batch-id and type columns, and every row with a
different id. -/
def DbLocal (tid : String) (db db2 : List Task) : Prop :=
  db2.map Task.id = db.map Task.id
  ∧ db2.map Task.batchId = db.map Task.batchId
  ∧ db2.map Task.type = db.map Task.type
  ∧ ∀ r ∈ db, r.id ≠ tid → r ∈ db2

theorem DbLocal_refl (tid : String) (db : List Task) :
    DbLocal tid db db :=
  ⟨rfl, rfl, rfl, fun _ h _ => h⟩

theorem DbLocal_trans {tid : String} {db1 db2 db3 : List Task}
    (h12 : DbLocal tid db1 db2) (h23 : DbLocal tid db2 db3) :
    DbLocal tid db1 db3 := by
  obtain ⟨a1, b1, c1, d1⟩ := h12
  obtain ⟨a2, b2, c2, d2⟩ := h23
  refine ⟨a2.trans a1, b2.trans b1, c2.trans c1, fun r hr hne => ?_⟩
  exact d2 r (d1 r hr hne) hne

/-- A column-preserving UPDATE whose WHERE clause only matches rows of
the given id is a local db step. -/
theorem DbLocal_sqlUpdate (tid : String) (c : Task → Bool)
    (f : Task → Task) (hc : ∀ u, c u = true → u.id = tid)
    (hfid : ∀ u, (f u).id = u.id)
    (hfb : ∀ u, (f u).batchId = u.batchId)
    (hft : ∀ u, (f u).type = u.type) (db : List Task) :
    DbLocal tid db (sqlUpdate c f db).2 := by
  refine ⟨?_, ?_, ?_, ?_⟩
  · exact sqlUpdate_map_id c f hfid db
  · rw [sqlUpdate_snd, List.map_map]
    refine List.map_congr_left fun t _ => ?_
    dsimp only [Function.comp]
    split
    · exact hfb t
    · rfl
  · rw [sqlUpdate_snd, List.map_map]
    refine List.map_congr_left fun t _ => ?_
    dsimp only [Function.comp]
    split
    · exact hft t
    · rfl
  · intro r hr hne
    have hcr : c r = false := by
      cases hcr : c r
      · rfl
      · exact absurd (hc r hcr) hne
    rw [sqlUpdate_snd]
    have := List.mem_map_of_mem
      (fun u => if c u then f u else u) hr
    simpa [hcr] using this

/-- A processor step that at most updates rows of the given id and
appends to the trace. -/
def LocalRun (tid : String) (w w2 : World) : Prop :=
  DbLocal tid w.db w2.db ∧ ∃ ext, w2.trace = w.trace ++ ext

theorem LocalRun_refl (tid : String) (w : World) : LocalRun tid w w :=
  ⟨DbLocal_refl tid w.db, [], by simp⟩

theorem LocalRun_trans {tid : String} {w1 w2 w3 : World}
    (h12 : LocalRun tid w1 w2) (h23 : LocalRun tid w2 w3) :
    LocalRun tid w1 w3 := by
  obtain ⟨hd1, e1, ht1⟩ := h12
  obtain ⟨hd2, e2, ht2⟩ := h23
  exact ⟨DbLocal_trans hd1 hd2, e1 ++ e2,
    by rw [ht2, ht1, List.append_assoc]⟩

theorem LocalRun_same_db (tid : String) (w w2 : World)
    (hdb : w2.db = w.db) (htr : ∃ ext, w2.trace = w.trace ++ ext) :
    LocalRun tid w w2 :=
  ⟨by rw [hdb]; exact DbLocal_refl tid w.db, htr⟩

theorem LocalRun_failTask (env : PEnv) (tid msg : String) (w : World) :
    LocalRun tid w (w.failTask env tid msg) := by
  constructor
  · show DbLocal tid w.db (taskDb.fail env.now tid msg w.db).2
    rw [taskDb.fail]
    refine DbLocal_sqlUpdate tid _ _ ?_ ?_ ?_ ?_ w.db
    · intro u hu
      simpa using hu
    · intro u
      rfl
    · intro u
      rfl
    · intro u
      rfl
  · exact ⟨[Ev.failedTask tid], rfl⟩

theorem LocalRun_completeTask (env : PEnv) (tid : String)
    (od : OutputData) (w : World) :
    LocalRun tid w (w.completeTask env tid od) := by
  constructor
  · show DbLocal tid w.db (taskDb.complete env.now tid od w.db).2
    rw [taskDb.complete]
    refine DbLocal_sqlUpdate tid _ _ ?_ ?_ ?_ ?_ w.db
    · intro u hu
      simpa using hu
    · intro u
      rfl
    · intro u
      rfl
    · intro u
      rfl
  · exact ⟨[Ev.completedTask tid], rfl⟩

theorem LocalRun_finishSave (env : PEnv) (tid : String) (task : Task)
    (ty : String) (cfg : ImgConfig) (sp : Option String)
    (artifact : String) (w : World) :
    LocalRun tid w (finishSave env tid task ty cfg sp artifact w).2 := by
  rw [finishSave]
  cases hsv : env.saveImage artifact task.userId (w.freshUuid env).1 with
  | error e =>
    refine LocalRun_trans ?_ (LocalRun_failTask env tid e (w.freshUuid env).2)
    exact LocalRun_same_db tid w _ rfl ⟨[], by simp [World.freshUuid]⟩
  | ok pr =>
    obtain ⟨url, thumb⟩ := pr
    refine LocalRun_trans ?_ (LocalRun_completeTask env tid _ _)
    exact LocalRun_same_db tid w _ rfl
      ⟨[Ev.artifactSaved (w.freshUuid env).1], by simp [World.freshUuid]⟩

theorem LocalRun_processGenerate (env : PEnv) (tid : String)
    (task : Task) (w : World) :
    LocalRun tid w (processGenerate env tid task w).2 := by
  rw [processGenerate]
  cases hmc : task.inputData.modelConfig with
  | some mc =>
    dsimp only
    cases hg : env.genEyewear task.inputData.imageBase64
        (strOr task.inputData.imageQuality "1K") mc
        (strOr task.inputData.gender "female") with
    | error e =>
      refine LocalRun_trans ?_ (LocalRun_failTask env tid e _)
      exact LocalRun_same_db tid w _ rfl ⟨[Ev.genInvoke], rfl⟩
    | ok artifact =>
      refine LocalRun_trans ?_
        (LocalRun_finishSave env tid task _ _ _ artifact _)
      exact LocalRun_same_db tid w _ rfl ⟨[Ev.genInvoke], rfl⟩
  | none =>
    dsimp only
    by_cases hp : truthyStr task.inputData.prompt = true
    · rw [if_pos hp]
      cases hg : env.genTemplate task.inputData.imageBase64
          (task.inputData.prompt.getD "")
          (strOr task.inputData.aspectRatio "3:4") with
      | error e =>
        refine LocalRun_trans ?_ (LocalRun_failTask env tid e _)
        exact LocalRun_same_db tid w _ rfl ⟨[Ev.genInvoke], rfl⟩
      | ok artifact =>
        refine LocalRun_trans ?_
          (LocalRun_finishSave env tid task _ _ _ artifact _)
        refine LocalRun_same_db tid w _ ?_ ⟨[Ev.genInvoke], ?_⟩
        · split <;> rfl
        · split <;> rfl
    · rw [if_neg hp]
      exact LocalRun_failTask env tid _ w

theorem LocalRun_processProductShot (env : PEnv) (tid : String)
    (task : Task) (w : World) :
    LocalRun tid w (processProductShot env tid task w).2 := by
  rw [processProductShot]
  dsimp only
  cases hg : env.genShot task.inputData.imageBase64 task.inputData.angle
      task.inputData.config with
  | error e =>
    refine LocalRun_trans ?_ (LocalRun_failTask env tid e _)
    exact LocalRun_same_db tid w _ rfl ⟨[Ev.genInvoke], rfl⟩
  | ok artifact =>
    dsimp only
    cases hsv : env.saveImage artifact task.userId
        ((({ w with trace := w.trace ++ [Ev.genInvoke] } :
          World).freshUuid env)).1 with
    | error e =>
      refine LocalRun_trans ?_ (LocalRun_failTask env tid e _)
      exact LocalRun_same_db tid w _ rfl
        ⟨[Ev.genInvoke], by simp [World.freshUuid]⟩
    | ok pr =>
      obtain ⟨url, thumb⟩ := pr
      refine LocalRun_trans ?_ (LocalRun_completeTask env tid _ _)
      exact LocalRun_same_db tid w _ rfl
        ⟨[Ev.genInvoke, Ev.artifactSaved
            ((({ w with trace := w.trace ++ [Ev.genInvoke] } :
              World).freshUuid env)).1],
         by simp [World.freshUuid]⟩

theorem LocalRun_processTask_nonbatch (env : PEnv) (fuel : Nat)
    (tid : String) (w : World)
    (hty : (taskDb.getById tid w.db).map Task.type
      ≠ some TaskType.batch) :
    LocalRun tid w (processTask env (fun d => d) fuel tid w).2 := by
  cases fuel with
  | zero => exact LocalRun_refl tid w
  | succ fuel =>
    rw [processTask]
    cases hfind : taskDb.getById tid w.db with
    | none => exact LocalRun_refl tid w
    | some task =>
      have htask : task.type ≠ TaskType.batch := by
        rw [hfind] at hty
        simp only [Option.map_some'] at hty
        intro hcontra
        exact hty (by rw [hcontra])
      dsimp only
      split
      · exact LocalRun_refl tid w
      · have hstep : ∀ w1 : World,
            LocalRun tid w1 (if task.status = Status.pending then
              { w1 with db := (taskDb.startProcessing env.now tid w1.db).2
                        trace := w1.trace ++ [Ev.casStart tid] }
            else w1) := by
          intro w1
          split
          · constructor
            · show DbLocal tid w1.db
                (taskDb.startProcessing env.now tid w1.db).2
              rw [taskDb.startProcessing]
              refine DbLocal_sqlUpdate tid _ _ ?_ ?_ ?_ ?_ w1.db
              · intro u hu
                rw [Bool.and_eq_true] at hu
                simpa using hu.1
              · intro u
                rfl
              · intro u
                rfl
              · intro u
                rfl
            · exact ⟨[Ev.casStart tid], rfl⟩
          · exact LocalRun_refl tid w1
        cases htc : task.type with
        | batch => exact absurd htc htask
        | product_shot =>
          exact LocalRun_trans (hstep { w with db := w.db })
            (LocalRun_processProductShot env tid task _)
        | generate =>
          exact LocalRun_trans (hstep { w with db := w.db })
            (LocalRun_processGenerate env tid task _)

/-- Looking up by id reads the type column, which is determined by the
id and type columns alone. -/
theorem getById_type_eq (tid : String) :
    ∀ (db db2 : List Task),
    db2.map Task.id = db.map Task.id →
    db2.map Task.type = db.map Task.type →
    (taskDb.getById tid db2).map Task.type
      = (taskDb.getById tid db).map Task.type := by
  intro db
  induction db with
  | nil =>
    intro db2 hid _
    cases db2 with
    | nil => rfl
    | cons h2 tl2 => cases hid
  | cons h tl ih =>
    intro db2 hid hty
    cases db2 with
    | nil => cases hid
    | cons h2 tl2 =>
      simp only [List.map_cons, List.cons.injEq] at hid hty
      rw [taskDb.getById, taskDb.getById, List.find?_cons, List.find?_cons]
      by_cases hh : h.id = tid
      · have e1 : (decide (h2.id = tid)) = true := by simp [hid.1, hh]
        have e2 : (decide (h.id = tid)) = true := by simp [hh]
        rw [e1, e2]
        simp [hty.1]
      · have e1 : (decide (h2.id = tid)) = false := by simp [hid.1, hh]
        have e2 : (decide (h.id = tid)) = false := by simp [hh]
        rw [e1, e2]
        exact ih tl2 hid.2 hty.2

/-- `find?` skips a front segment on which the predicate fails. -/
theorem find?_append_of_none {α : Type} (p : α → Bool) (l1 l2 : List α)
    (h : ∀ x ∈ l1, p x = false) :
    (l1 ++ l2).find? p = l2.find? p := by
  induction l1 with
  | nil => rfl
  | cons x xs ih =>
    rw [List.cons_append, List.find?_cons, h x (List.mem_cons_self _ _)]
    exact ih fun y hy => h y (List.mem_cons_of_mem _ hy)

/-- Driving a worklist of non-batch task ids preserves the id, batch-id
and type columns, every row whose id is off the worklist, and only
appends to the trace. -/
theorem dispatchFold_spec (env : PEnv) (fuel : Nat) :
    ∀ (sibs : List Task) (w : World),
    (∀ s ∈ sibs, (taskDb.getById s.id w.db).map Task.type
        ≠ some TaskType.batch) →
    ((sibs.foldl (fun w t =>
        (processTask env (fun d => d) fuel t.id w).2) w).db.map Task.id
      = w.db.map Task.id)
    ∧ ((sibs.foldl (fun w t =>
        (processTask env (fun d => d) fuel t.id w).2) w).db.map
          Task.batchId = w.db.map Task.batchId)
    ∧ ((sibs.foldl (fun w t =>
        (processTask env (fun d => d) fuel t.id w).2) w).db.map Task.type
      = w.db.map Task.type)
    ∧ (∀ r ∈ w.db, (∀ s ∈ sibs, r.id ≠ s.id) →
        r ∈ (sibs.foldl (fun w t =>
          (processTask env (fun d => d) fuel t.id w).2) w).db)
    ∧ ∃ ext, (sibs.foldl (fun w t =>
        (processTask env (fun d => d) fuel t.id w).2) w).trace
        = w.trace ++ ext := by
  intro sibs
  induction sibs with
  | nil =>
    intro w _
    exact ⟨rfl, rfl, rfl, fun r hr _ => hr, [], by simp⟩
  | cons s rest ih =>
    intro w hty
    rw [List.foldl_cons]
    obtain ⟨⟨hid1, hb1, hty1, hmem1⟩, ext1, htr1⟩ :=
      LocalRun_processTask_nonbatch env fuel s.id w
        (hty s (List.mem_cons_self _ _))
    have htyrest : ∀ s2 ∈ rest,
        (taskDb.getById s2.id
          (processTask env (fun d => d) fuel s.id w).2.db).map Task.type
          ≠ some TaskType.batch := by
      intro s2 hs2
      rw [getById_type_eq s2.id w.db _ hid1 hty1]
      exact hty s2 (List.mem_cons_of_mem _ hs2)
    obtain ⟨hid2, hb2, hty2, hmem2, ext2, htr2⟩ :=
      ih (processTask env (fun d => d) fuel s.id w).2 htyrest
    refine ⟨hid2.trans hid1, hb2.trans hb1, hty2.trans hty1, ?_,
      ext1 ++ ext2, ?_⟩
    · intro r hr hne
      exact hmem2 r (hmem1 r hr (hne s (List.mem_cons_self _ _)))
        fun s2 h => hne s2 (List.mem_cons_of_mem _ h)
    · rw [htr2, htr1, List.append_assoc]

theorem siblingRows_ids_nodup (env : PEnv) (task : Task) (ar b : String)
    (hinj : Function.Injective env.uuid) :
    ∀ (combos : List (List (String × String))) (n : Nat),
    ((siblingRows env task ar b n combos).map Task.id).Nodup := by
  intro combos
  induction combos with
  | nil => intro n; simp [siblingRows]
  | cons combo rest ih =>
    intro n
    rw [siblingRows, List.map_cons, List.nodup_cons]
    refine ⟨?_, ih (n + 1)⟩
    intro hmemid
    obtain ⟨t, htmem, htid⟩ := List.mem_map.mp hmemid
    obtain ⟨_, _, _, i, _, hid⟩ := siblingRows_mem env task ar b rest
      (n + 1) t htmem
    rw [hid] at htid
    have : n + 1 + i = n := hinj htid
    omega

/-- The sibling-creation fold in full: the rows are appended, the uuid
counter advances by one per combination, and one `createTask` event is
recorded per sibling. -/
theorem createFold_world (env : PEnv) (task : Task) (ar b : String) :
    ∀ (combos : List (List (String × String))) (w : World),
    combos.foldl (createSiblingStep env task ar b) w
      = { w with
          db := w.db ++ siblingRows env task ar b w.uuidCtr combos
          uuidCtr := w.uuidCtr + combos.length
          trace := w.trace
            ++ (siblingRows env task ar b w.uuidCtr combos).map
              (fun t => Ev.createTask t.id) } := by
  intro combos
  induction combos with
  | nil =>
    intro w
    simp [siblingRows]
  | cons combo rest ih =>
    intro w
    rw [List.foldl_cons, createSiblingStep_eq, ih]
    simp only [siblingRows, List.map_cons, List.length_cons]
    congr 1 <;> first
      | omega
      | simp [List.append_assoc, mkSibling]

/-- The batch arm of `processTask` (with `fuel` for the sibling runs),
as reached from the world left by the CAS write. -/
def batchBranch (env : PEnv) (fuel : Nat) (pid : String) (parent : Task)
    (w : World) : Bool × World :=
  let input := parent.inputData
  let aspectRatio := strOr input.aspectRatio "3:4"
  let concurrency := (min 5 (max 1 (intOr input.concurrency 3))).toNat
  let p := w.freshUuid env
  let batchId := p.1
  let w := p.2
  let w := input.combinations.foldl
    (createSiblingStep env parent aspectRatio batchId) w
  let w := w.completeTask env pid
    { success := true, batchId := some batchId
      subTaskCount := some input.combinations.length
      message := some ("Successfully created "
        ++ toString input.combinations.length ++ " generation tasks") }
  let pendingTasks := (taskDb.getByBatchId batchId w.db).filter
    fun t => t.status = Status.pending
  let w :=
    if pendingTasks.isEmpty then w
    else
      let w := { w with trace := w.trace
        ++ [Ev.dispatchedBatch batchId concurrency] }
      pendingTasks.foldl
        (fun w t => (processTask env (fun d => d) fuel t.id w).2) w
  (true, w)

/-- An isolated `processTask` on a pending batch parent runs the batch
arm from the post-CAS world. -/
theorem processTask_batch_eq (env : PEnv) (fuel : Nat) (pid : String)
    (parent : Task) (w : World)
    (hget : taskDb.getById pid w.db = some parent)
    (htype : parent.type = TaskType.batch)
    (hstat : parent.status = Status.pending) :
    processTask env (fun d => d) (fuel + 1) pid w
      = batchBranch env fuel pid parent
          { w with db := (taskDb.startProcessing env.now pid w.db).2
                   trace := w.trace ++ [Ev.casStart pid] } := by
  rw [processTask, hget]
  dsimp only
  rw [if_neg (by simp [hstat]), if_pos hstat, htype]
  rfl

/-- An UPDATE whose SET clause keeps a column intact keeps that column
of the table intact. -/
theorem sqlUpdate_map_col {β : Type} (g : Task → β) (c : Task → Bool)
    (f : Task → Task) (hf : ∀ u, g (f u) = g u) (db : List Task) :
    (sqlUpdate c f db).2.map g = db.map g := by
  rw [sqlUpdate_snd, List.map_map]
  refine List.map_congr_left fun t _ => ?_
  dsimp only [Function.comp]
  split
  · exact hf t
  · rfl

/-- Two tables with the same batch-id column have the same number of
rows in any batch. -/
theorem filter_batch_eq_of_map_eq (b : String) (l1 l2 : List Task)
    (h : l1.map Task.batchId = l2.map Task.batchId) :
    (l1.filter fun t => t.batchId = some b).length
      = (l2.filter fun t => t.batchId = some b).length := by
  rw [← List.countP_eq_length_filter, ← List.countP_eq_length_filter]
  calc l1.countP (fun t => decide (t.batchId = some b))
      = (l1.map Task.batchId).countP (fun o => decide (o = some b)) := by
        rw [List.countP_map]
        rfl
    _ = (l2.map Task.batchId).countP (fun o => decide (o = some b)) := by
        rw [h]
    _ = l2.countP (fun t => decide (t.batchId = some b)) := by
        rw [List.countP_map]
        rfl

/-- C10: an isolated `processTask` on a pending batch-parent task whose
input carries V combinations (1) inserts exactly V sibling rows, all
sharing the one batch id drawn fresh from the uuid supply, so the final
table holds exactly V rows of that batch; (2) completes the parent —
the parent reads back `completed` in the final store for every
generation/storage oracle, i.e. independently of the sibling outcomes;
(3) orders the trace as: the CAS claim, the V sibling creations, the
parent completion, the dispatch of the batch to the concurrency-limited
executor, and only then any sibling-execution events; and (4) the
dispatched concurrency is the configured value clamped into [1, 5]. -/
theorem processTask_batch_parent_spec (env : PEnv) (w : World)
    (pid : String) (parent : Task)
    (hget : taskDb.getById pid w.db = some parent)
    (htype : parent.type = TaskType.batch)
    (hstat : parent.status = Status.pending)
    (hu : (w.db.map Task.id).Nodup)
    (hinj : Function.Injective env.uuid)
    (hids : ∀ n, ∀ t ∈ w.db, env.uuid n ≠ t.id)
    (hbid : ∀ t ∈ w.db, t.batchId ≠ some (env.uuid w.uuidCtr))
    (hne : parent.inputData.combinations ≠ []) :
    (((processTask env (fun d => d) 2 pid w).2.db.filter
        (fun t => t.batchId = some (env.uuid w.uuidCtr))).length
      = parent.inputData.combinations.length)
    ∧ ((taskDb.getById pid
        (processTask env (fun d => d) 2 pid w).2.db).map
        Task.status = some Status.completed)
    ∧ (∃ tail, (processTask env (fun d => d) 2 pid w).2.trace
        = w.trace ++ [Ev.casStart pid]
          ++ (siblingRows env parent
              (strOr parent.inputData.aspectRatio "3:4")
              (env.uuid w.uuidCtr) (w.uuidCtr + 1)
              parent.inputData.combinations).map
            (fun t => Ev.createTask t.id)
          ++ [Ev.completedTask pid,
              Ev.dispatchedBatch (env.uuid w.uuidCtr)
                (min 5 (max 1 (intOr parent.inputData.concurrency
                  3))).toNat]
          ++ tail)
    ∧ 1 ≤ (min 5 (max 1 (intOr parent.inputData.concurrency 3))).toNat
    ∧ (min 5 (max 1 (intOr parent.inputData.concurrency 3))).toNat
        ≤ 5 := by
  have hmem : parent ∈ w.db := List.mem_of_find?_eq_some hget
  have hpid : parent.id = pid := by
    have := List.find?_some hget
    simpa using this
  have hclamp1 : (1 : Int)
      ≤ min 5 (max 1 (intOr parent.inputData.concurrency 3)) :=
    le_min (by norm_num) (le_max_left 1 _)
  have hclamp2 : min 5 (max 1 (intOr parent.inputData.concurrency 3))
      ≤ (5 : Int) := min_le_left _ _
  rw [show (2 : Nat) = 1 + 1 from rfl,
    processTask_batch_eq env 1 pid parent w hget htype hstat]
  rw [batchBranch, createFold_world]
  simp only [World.freshUuid, World.completeTask]
  set b := env.uuid w.uuidCtr with hbdef
  set ar := strOr parent.inputData.aspectRatio "3:4" with hardef
  set combos := parent.inputData.combinations with hcombosdef
  set sibs := siblingRows env parent ar b (w.uuidCtr + 1) combos
    with hsibsdef
  set dbA := (taskDb.startProcessing env.now pid w.db).2 with hdbAdef
  set od : OutputData :=
    { success := true, batchId := some b
      subTaskCount := some combos.length
      message := some ("Successfully created " ++ toString combos.length
        ++ " generation tasks") } with hoddef
  set gC : Task → Task := (fun t => if (t.id = pid : Bool)
      then { t with status := Status.completed, outputData := some od
                    completedAt := some env.now, progress := 100 }
      else t) with hgCdef
  set dbD := (taskDb.complete env.now pid od (dbA ++ sibs)).2
    with hdbDdef
  set parentA : Task :=
    { parent with
        status := Status.processing
        startedAt := some env.now
        progress := 10 } with hpAdef
  set parentC : Task :=
    { parent with
        status := Status.completed
        progress := 100
        outputData := some od
        startedAt := some env.now
        completedAt := some env.now } with hpCdef
  -- column facts about the CAS write
  have hAid : dbA.map Task.id = w.db.map Task.id := by
    rw [hdbAdef]
    refine sqlUpdate_map_col Task.id _ _ ?_ w.db
    intro u
    rfl
  have hAbatch : dbA.map Task.batchId = w.db.map Task.batchId := by
    rw [hdbAdef]
    refine sqlUpdate_map_col Task.batchId _ _ ?_ w.db
    intro u
    rfl
  -- sibling facts
  have hsibmem := siblingRows_mem env parent ar b combos (w.uuidCtr + 1)
  have hsibnotdb : ∀ t ∈ sibs, ∀ t2 ∈ w.db, t.id ≠ t2.id := by
    intro t ht t2 ht2
    obtain ⟨_, _, _, i, _, hid⟩ := hsibmem t ht
    rw [hid]
    exact hids _ t2 ht2
  have hsibpid : ∀ t ∈ sibs, t.id ≠ pid := by
    intro t ht
    have := hsibnotdb t ht parent hmem
    rwa [hpid] at this
  have hlen : sibs.length = combos.length :=
    siblingRows_length env parent ar b combos (w.uuidCtr + 1)
  have hnonempty : sibs.isEmpty = false := by
    cases hsb : sibs with
    | nil =>
      exfalso
      rw [hsb] at hlen
      exact hne (List.length_eq_zero.mp hlen.symm)
    | cons a l => rfl
  -- decomposition of the table after the parent completion
  have hgsib : ∀ t ∈ sibs, gC t = t := by
    intro t ht
    rw [hgCdef]
    simp [hsibpid t ht]
  have hgCid : Task.id ∘ gC = Task.id := by
    funext t
    rw [hgCdef]
    dsimp only [Function.comp]
    split <;> rfl
  have hgCbatch : Task.batchId ∘ gC = Task.batchId := by
    funext t
    rw [hgCdef]
    dsimp only [Function.comp]
    split <;> rfl
  have hdbDdecomp : dbD = dbA.map gC ++ sibs := by
    have hstep : dbD = (dbA ++ sibs).map gC := by
      rw [hdbDdef]
      show (sqlUpdate (fun t => (t.id = pid : Bool))
        (fun t => { t with status := Status.completed
                           outputData := some od
                           completedAt := some env.now
                           progress := 100 }) (dbA ++ sibs)).2 = _
      rw [sqlUpdate_snd, hgCdef]
    rw [hstep, List.map_append]
    congr 1
    calc sibs.map gC = sibs.map id := List.map_congr_left hgsib
      _ = sibs := List.map_id sibs
  -- rows carried over from before the run are never in the fresh batch
  have hArow : ∀ x ∈ dbA.map gC, x.batchId ≠ some b := by
    intro x hx
    have hcol : (dbA.map gC).map Task.batchId = w.db.map Task.batchId := by
      rw [List.map_map, hgCbatch, hAbatch]
    have hxmem : x.batchId ∈ w.db.map Task.batchId := by
      rw [← hcol]
      exact List.mem_map_of_mem Task.batchId hx
    obtain ⟨t2, ht2, hbeq⟩ := List.mem_map.mp hxmem
    intro hxb
    exact hbid t2 ht2 (by rw [hbeq, hxb])
  -- the executor worklist is exactly the fresh siblings
  have hps : List.filter (fun t => t.status = Status.pending)
      (taskDb.getByBatchId b dbD) = sibs := by
    rw [taskDb.getByBatchId, hdbDdecomp, List.filter_append]
    have h1 : (dbA.map gC).filter (fun t => t.batchId = some b) = [] := by
      rw [List.filter_eq_nil_iff]
      intro x hx
      simpa using hArow x hx
    have h2 : sibs.filter (fun t => t.batchId = some b) = sibs := by
      rw [List.filter_eq_self]
      intro t ht
      simp [(hsibmem t ht).1]
    rw [h1, h2, List.nil_append, List.filter_eq_self]
    intro t ht
    simp [(hsibmem t ht).2.1]
  rw [hps, if_neg (by simp [hnonempty])]
  -- the sibling runs are non-batch and local
  have hfront : ∀ s ∈ sibs, ∀ x ∈ dbA.map gC,
      (decide (x.id = s.id)) = false := by
    intro s hs x hx
    have hcol2 : (dbA.map gC).map Task.id = w.db.map Task.id := by
      rw [List.map_map, hgCid, hAid]
    have hxid : x.id ∈ w.db.map Task.id := by
      rw [← hcol2]
      exact List.mem_map_of_mem Task.id hx
    obtain ⟨t2, ht2, hteq⟩ := List.mem_map.mp hxid
    simp only [decide_eq_false_iff_not]
    intro hxe
    obtain ⟨_, _, _, i, _, hsid⟩ := hsibmem s hs
    apply hids (w.uuidCtr + 1 + i) t2 ht2
    rw [← hsid, ← hxe, ← hteq]
  have hdispWE : ∀ s ∈ sibs, (taskDb.getById s.id dbD).map Task.type
      ≠ some TaskType.batch := by
    intro s hs
    rw [hdbDdecomp, taskDb.getById,
      find?_append_of_none _ (dbA.map gC) sibs (hfront s hs)]
    cases hfound : sibs.find? (fun t => t.id = s.id) with
    | none =>
      exfalso
      have := List.find?_eq_none.mp hfound s hs
      simp at this
    | some r =>
      have hr : r ∈ sibs := List.mem_of_find?_eq_some hfound
      have hrty : r.type = TaskType.generate := (hsibmem r hr).2.2.1
      simp [hrty]
  obtain ⟨hFid, hFbatch, hFtype, hFmem, ext, hFtr⟩ :=
    dispatchFold_spec env 1 sibs
      { db := dbD, images := w.images
        promptHistoryCount := w.promptHistoryCount
        uuidCtr := w.uuidCtr + 1 + combos.length
        trace := w.trace ++ [Ev.casStart pid]
          ++ sibs.map (fun t => Ev.createTask t.id)
          ++ [Ev.completedTask pid]
          ++ [Ev.dispatchedBatch b
              (min 5 (max 1 (intOr parent.inputData.concurrency
                3))).toNat] }
      (fun s hs => hdispWE s hs)
  refine ⟨?_, ?_, ⟨ext, ?_⟩, by omega, by omega⟩
  · -- exactly V rows of the fresh batch in the final table
    have hcolF : (sibs.foldl (fun w t =>
        (processTask env (fun d => d) 1 t.id w).2)
          { db := dbD, images := w.images
            promptHistoryCount := w.promptHistoryCount
            uuidCtr := w.uuidCtr + 1 + combos.length
            trace := w.trace ++ [Ev.casStart pid]
              ++ sibs.map (fun t => Ev.createTask t.id)
              ++ [Ev.completedTask pid]
              ++ [Ev.dispatchedBatch b
                  (min 5 (max 1 (intOr parent.inputData.concurrency
                    3))).toNat] }).db.map Task.batchId
        = (w.db ++ sibs).map Task.batchId := by
      rw [hFbatch]
      show dbD.map Task.batchId = _
      rw [hdbDdecomp, List.map_append, List.map_append, List.map_map,
        hgCbatch, hAbatch]
    rw [filter_batch_eq_of_map_eq b _ _ hcolF, List.filter_append]
    have h1 : w.db.filter (fun t => t.batchId = some b) = [] := by
      rw [List.filter_eq_nil_iff]
      intro x hx
      simpa using hbid x hx
    have h2 : sibs.filter (fun t => t.batchId = some b) = sibs := by
      rw [List.filter_eq_self]
      intro t ht
      simp [(hsibmem t ht).1]
    rw [h1, h2, List.nil_append, hlen]
  · -- the parent reads back completed
    have hparentA : parentA ∈ dbA := by
      rw [hpAdef, hdbAdef]
      show _ ∈ (sqlUpdate
        (fun t => (t.id = pid && t.status = Status.pending : Bool))
        (fun t => { t with status := Status.processing
                           startedAt := some env.now, progress := 10 })
        w.db).2
      rw [sqlUpdate_snd]
      have := List.mem_map_of_mem (fun u =>
        if (u.id = pid && u.status = Status.pending : Bool)
        then { u with status := Status.processing
                      startedAt := some env.now, progress := 10 }
        else u) hmem
      simpa [hpid, hstat] using this
    have hparentC : parentC ∈ dbD := by
      rw [hdbDdecomp]
      refine List.mem_append.mpr (Or.inl ?_)
      have hin := List.mem_map_of_mem gC hparentA
      have hgCval : gC parentA = parentC := by
        rw [hpAdef, hpCdef, hgCdef]
        simp [hpid]
      rwa [hgCval] at hin
    have hparentF : parentC
        ∈ (sibs.foldl (fun w t =>
          (processTask env (fun d => d) 1 t.id w).2)
            { db := dbD, images := w.images
              promptHistoryCount := w.promptHistoryCount
              uuidCtr := w.uuidCtr + 1 + combos.length
              trace := w.trace ++ [Ev.casStart pid]
                ++ sibs.map (fun t => Ev.createTask t.id)
                ++ [Ev.completedTask pid]
                ++ [Ev.dispatchedBatch b
                    (min 5 (max 1 (intOr parent.inputData.concurrency
                      3))).toNat] }).db := by
      refine hFmem _ hparentC ?_
      intro s hs
      rw [hpCdef]
      show parent.id ≠ s.id
      rw [hpid]
      exact (hsibpid s hs).symm
    have hFnodup : ((sibs.foldl (fun w t =>
        (processTask env (fun d => d) 1 t.id w).2)
          { db := dbD, images := w.images
            promptHistoryCount := w.promptHistoryCount
            uuidCtr := w.uuidCtr + 1 + combos.length
            trace := w.trace ++ [Ev.casStart pid]
              ++ sibs.map (fun t => Ev.createTask t.id)
              ++ [Ev.completedTask pid]
              ++ [Ev.dispatchedBatch b
                  (min 5 (max 1 (intOr parent.inputData.concurrency
                    3))).toNat] }).db.map Task.id).Nodup := by
      rw [hFid]
      show (dbD.map Task.id).Nodup
      rw [hdbDdecomp, List.map_append, List.map_map, hgCid, hAid,
        List.nodup_append]
      refine ⟨hu, siblingRows_ids_nodup env parent ar b hinj combos
        (w.uuidCtr + 1), ?_⟩
      intro a ha ha2
      obtain ⟨t2, ht2, rfl⟩ := List.mem_map.mp ha
      obtain ⟨t3, ht3, h3⟩ := List.mem_map.mp ha2
      obtain ⟨_, _, _, i, _, hid3⟩ := hsibmem t3 ht3
      exact hids (w.uuidCtr + 1 + i) t2 ht2 (by rw [← hid3, h3])
    have hlook := getById_self _ _ hFnodup hparentF
    have hpcid : parentC.id = pid := by
      rw [hpCdef]
      exact hpid
    rw [hpcid] at hlook
    rw [hlook]
    simp [hpCdef]
  · -- trace order
    rw [hFtr]
    show (w.trace ++ [Ev.casStart pid]
        ++ sibs.map (fun t => Ev.createTask t.id)
        ++ [Ev.completedTask pid]
        ++ [Ev.dispatchedBatch b
            (min 5 (max 1 (intOr parent.inputData.concurrency
              3))).toNat]) ++ ext = _
    simp [List.append_assoc]

/-- Counter-indexed uuid oracle for the batch run: counter n yields a
run of n letters b, so distinct counters give strings of distinct
lengths. -/
def buuid (n : Nat) : String := String.mk (List.replicate n 'b')

/-- Oracles for the concrete batch-dispatch run: generation and storage
always succeed, uuids come from `buuid`. -/
def batchEnv : PEnv :=
  { genEyewear := fun _ _ _ _ => .ok "art"
    genTemplate := fun _ _ _ => .ok "art"
    genShot := fun _ _ _ => .ok "art"
    saveImage := fun _ _ _ => .ok ("u.png", "t.png")
    uuid := buuid
    now := 500 }

/-- A pending batch task with two variant combinations. -/
def batchParent : Task :=
  { id := "p1", userId := 1, type := .batch, status := .pending
    progress := 0
    inputData := { imageBase64 := "img", prompt := some "p"
                   combinations := [[("Color", "red")],
                     [("Color", "blue")]] }
    outputData := none, errorMessage := none, batchId := none
    createdAt := 0, startedAt := none, completedAt := none }

/-- The initial world of the batch-dispatch run. -/
def batchWorld : World :=
  { db := [batchParent], images := [], promptHistoryCount := 0
    uuidCtr := 0, trace := [] }

/-- Distinct counters yield distinct `buuid` strings. -/
theorem buuid_inj : Function.Injective buuid := by
  intro a b h
  have h2 := congrArg String.data h
  simp only [buuid] at h2
  have h3 := congrArg List.length h2
  simpa using h3

/-- No `buuid` string collides with an id already in the store. -/
theorem batch_ids_fresh : ∀ n, ∀ t ∈ batchWorld.db, buuid n ≠ t.id := by
  intro n t ht h
  have ht2 : t = batchParent := by simpa [batchWorld] using ht
  rw [ht2] at h
  have hlen : (buuid n).length = 2 := by rw [h]; rfl
  have hn : n = 2 := by simpa [buuid, String.length] using hlen
  rw [hn] at h
  exact absurd h (by decide)

/-- Concrete batch-dispatch run of `processTask`: parent p1 with two
combinations spawns exactly two sibling rows under the fresh batch id,
the parent reads back completed, the trace shows the create events
before the completion and the dispatch, and the concurrency clamp
gives a bound between 1 and 5. -/
theorem processTask_batch_parent_spec_witness :
    (((processTask batchEnv (fun d => d) 2 "p1" batchWorld).2.db.filter
        (fun t => t.batchId
          = some (batchEnv.uuid batchWorld.uuidCtr))).length
      = batchParent.inputData.combinations.length)
    ∧ ((taskDb.getById "p1"
        (processTask batchEnv (fun d => d) 2 "p1" batchWorld).2.db).map
        Task.status = some Status.completed)
    ∧ (∃ tail,
        (processTask batchEnv (fun d => d) 2 "p1" batchWorld).2.trace
        = batchWorld.trace ++ [Ev.casStart "p1"]
          ++ (siblingRows batchEnv batchParent
              (strOr batchParent.inputData.aspectRatio "3:4")
              (batchEnv.uuid batchWorld.uuidCtr)
              (batchWorld.uuidCtr + 1)
              batchParent.inputData.combinations).map
            (fun t => Ev.createTask t.id)
          ++ [Ev.completedTask "p1",
              Ev.dispatchedBatch (batchEnv.uuid batchWorld.uuidCtr)
                (min 5 (max 1
                  (intOr batchParent.inputData.concurrency 3))).toNat]
          ++ tail)
    ∧ 1 ≤ (min 5 (max 1
        (intOr batchParent.inputData.concurrency 3))).toNat
    ∧ (min 5 (max 1
        (intOr batchParent.inputData.concurrency 3))).toNat ≤ 5 :=
  processTask_batch_parent_spec batchEnv batchWorld "p1" batchParent
    rfl rfl rfl (by decide) buuid_inj batch_ids_fresh (by decide)
    (by decide)

end LyraGlass
